import Mathlib

/-!
Verification of the iam inter-agent messaging plugin.

This file shallowly embeds the plugin's core state and operations:
* `src/index.ts` — alias registry, in-memory mailbox store, the `announce`
  and `broadcast` tool bodies, and the message-injection transform;
* `src/unnamed/part_002` — the thread tracker (threads, pending updates);
* `src/lib/frontmatter.ts` — the YAML-like frontmatter generator/parser.

JavaScript `Map`/`Set` state is modelled with functions `String → Option _`
(respectively ordered `List String`), in-place object mutation becomes
explicit state passing, `Date.now()` / `Math.random()` results are passed in
as parameters, and file-system writes (which never feed back into the state
the claims are about) are dropped.  String manipulation is done on `List
Char` with executable recursive functions, since the byte-indexed core
`String` primitives do not reduce in the kernel.
-/

namespace Iam

/-! ### Character-list string utilities (models of the JS string methods) -/

/-- Model of JavaScript whitespace used by `String.prototype.trim`. -/
def isWs (c : Char) : Bool := c.isWhitespace

/-- Drop leading whitespace, as in the first half of JS `trim()`. -/
def dropLeadWs (l : List Char) : List Char := l.dropWhile isWs

/-- Drop trailing whitespace, as in the second half of JS `trim()`. -/
def dropTrailWs (l : List Char) : List Char := (l.reverse.dropWhile isWs).reverse

/-- Model of JavaScript `String.prototype.trim()` on a character list. -/
def trimChars (l : List Char) : List Char := dropTrailWs (dropLeadWs l)

/-- Model of JS `String.prototype.split(sep)` for a single-character
separator: `"a,b".split(",") = ["a","b"]`, `"".split(",") = [""]`. -/
def splitOnChar (sep : Char) : List Char → List (List Char)
  | [] => [[]]
  | c :: cs =>
    if c = sep then [] :: splitOnChar sep cs
    else
      match splitOnChar sep cs with
      | [] => [[c]]
      | l :: ls => (c :: l) :: ls

/-- Model of JS `Array.prototype.join(sep)` for the strings we join with a
single-character separator (inverse of `splitOnChar`). -/
def joinChar (sep : Char) : List (List Char) → List Char
  | [] => []
  | [l] => l
  | l :: ls => l ++ sep :: joinChar sep ls

/-- JS truthiness of an optional string argument: `undefined`/`null` and the
empty string are falsy (`!args.message`). -/
def jsTruthyStr : Option String → Bool
  | none => false
  | some s => s ≠ ""

/-- Model of JS `String.prototype.toLowerCase()` (ASCII-relevant part). -/
def jsToLower (s : String) : String := String.mk (s.data.map Char.toLower)

/-- Model of JS `receiver.endsWith(arg)`. -/
def jsEndsWith (s post : String) : Bool := post.data.isSuffixOf s.data

/-! ### Decimal rendering (model of JS `Number.prototype.toString()`) -/

/-- Decimal digit character for `d < 10`. -/
def digitChar (d : Nat) : Char := Char.ofNat (48 + d)

/-- Decimal rendering of a natural number, modelling JavaScript
`Number.prototype.toString()` (base 10). -/
def natToDec (n : Nat) : List Char :=
  if n < 10 then [digitChar n]
  else natToDec (n / 10) ++ [digitChar (n % 10)]
decreasing_by exact Nat.div_lt_self (by omega) (by omega)

/-- Folding a digit list back to the number it denotes. -/
def evalDec (l : List Char) : Nat := l.foldl (fun a c => 10 * a + (c.toNat - 48)) 0

theorem toNat_ofNat_valid {n : Nat} (h : n.isValidChar) : (Char.ofNat n).toNat = n := by
  simp [Char.ofNat, dif_pos h, Char.ofNatAux, Char.toNat, UInt32.toNat]

theorem ofNat_inj_valid {a b : Nat} (ha : a.isValidChar) (hb : b.isValidChar)
    (h : Char.ofNat a = Char.ofNat b) : a = b := by
  have := congrArg Char.toNat h
  rwa [toNat_ofNat_valid ha, toNat_ofNat_valid hb] at this

theorem digitChar_toNat (d : Nat) (hd : d < 10) : (digitChar d).toNat = 48 + d :=
  toNat_ofNat_valid (Or.inl (by omega))

theorem evalDec_aux (l : List Char) (a : Nat) :
    l.foldl (fun a c => 10 * a + (c.toNat - 48)) a =
      a * 10 ^ l.length + evalDec l := by
  induction l generalizing a with
  | nil => simp [evalDec]
  | cons c cs ih =>
    rw [List.foldl_cons, ih]
    have h2 : evalDec (c :: cs) = (10 * 0 + (c.toNat - 48)) * 10 ^ cs.length + evalDec cs := by
      rw [evalDec, List.foldl_cons, ih]
    rw [h2]
    simp only [List.length_cons, pow_succ]
    ring

theorem evalDec_natToDec (n : Nat) : evalDec (natToDec n) = n := by
  induction n using Nat.strong_induction_on with
  | _ n ih =>
    rw [natToDec]
    by_cases h : n < 10
    · rw [if_pos h]
      simp only [evalDec, List.foldl_cons, List.foldl_nil]
      rw [digitChar_toNat n h]
      omega
    · rw [if_neg h]
      rw [evalDec, List.foldl_append]
      have hrec : (natToDec (n / 10)).foldl (fun a c => 10 * a + (c.toNat - 48)) 0
          = n / 10 := ih (n / 10) (Nat.div_lt_self (by omega) (by omega))
      simp only [hrec, List.foldl_cons, List.foldl_nil]
      rw [digitChar_toNat (n % 10) (Nat.mod_lt _ (by omega))]
      omega

theorem natToDec_injective : Function.Injective natToDec := by
  intro a b h
  have := evalDec_natToDec a
  rw [h, evalDec_natToDec] at this
  omega

theorem natToDec_ne_nil (n : Nat) : natToDec n ≠ [] := by
  rw [natToDec]
  by_cases h : n < 10 <;> simp [h]

/-! ### Alias generation (src/index.ts, `getNextAlias`)

`getNextAlias` reads and post-increments the module-level `nextAgentIndex`;
we model the string it produces as a pure function of that index: letter
`A`–`Z` from `index % 26` plus, from index 26 on, the decimal suffix
`Math.floor(index / 26).toString()`. -/

def getNextAliasStr (n : Nat) : String :=
  "agent" ++ String.mk [Char.ofNat (65 + n % 26)] ++
    (if n ≥ 26 then String.mk (natToDec (n / 26)) else "")

theorem getNextAliasStr_data (n : Nat) :
    (getNextAliasStr n).data =
      'a' :: 'g' :: 'e' :: 'n' :: 't' :: Char.ofNat (65 + n % 26) ::
        (if n ≥ 26 then natToDec (n / 26) else []) := by
  rw [getNextAliasStr, String.data_append, String.data_append]
  by_cases h : n ≥ 26 <;> simp [h, String.mk]

theorem getNextAliasStr_injective : Function.Injective getNextAliasStr := by
  intro a b h
  have hd := congrArg String.data h
  rw [getNextAliasStr_data, getNextAliasStr_data] at hd
  simp only [List.cons.injEq, true_and] at hd
  obtain ⟨hc, hs⟩ := hd
  have hmod : a % 26 = b % 26 := by
    have ha : (65 + a % 26).isValidChar := Or.inl (by have := Nat.mod_lt a (show 0 < 26 by omega); omega)
    have hb : (65 + b % 26).isValidChar := Or.inl (by have := Nat.mod_lt b (show 0 < 26 by omega); omega)
    have := ofNat_inj_valid ha hb hc
    omega
  by_cases h26a : a ≥ 26 <;> by_cases h26b : b ≥ 26
  · rw [if_pos h26a, if_pos h26b] at hs
    have hdiv : a / 26 = b / 26 := natToDec_injective hs
    omega
  · rw [if_pos h26a, if_neg h26b] at hs
    exact absurd hs (natToDec_ne_nil _)
  · rw [if_neg h26a, if_pos h26b] at hs
    exact absurd hs.symm (natToDec_ne_nil _)
  · omega

/-! ### The in-memory registry and mailbox state (src/index.ts)

Module-level mutable state of `src/index.ts`:
`inboxes : Map<string, Message[]>`, `activeSessions : Set<string>`,
`sessionToAlias` / `aliasToSession : Map<string, string>`,
`agentDescriptions : Map<string, string>`, `nextAgentIndex : number`.
Maps are modelled as functions to `Option`, the `Set` (whose insertion
order `getKnownAgents` iterates over) as an ordered duplicate-free list.
`generateId()` (`Math.random()`-based) and `Date.now()` are modelled by
passing the produced values in as parameters. -/

structure Message where
  id : String
  from_ : String
  to_ : String
  body : String
  timestamp : Nat
  read : Bool
deriving DecidableEq, Repr

structure IamState where
  inboxes : String → List Message
  activeSessions : List String
  sessionToAlias : String → Option String
  aliasToSession : String → Option String
  agentDescriptions : String → Option String
  nextAgentIndex : Nat

/-- The state at module load: all maps empty, `nextAgentIndex = 0`. -/
def iamInit : IamState :=
  { inboxes := fun _ => []
    activeSessions := []
    sessionToAlias := fun _ => none
    aliasToSession := fun _ => none
    agentDescriptions := fun _ => none
    nextAgentIndex := 0 }

/-- `getAlias` (src/index.ts:53): `sessionToAlias.get(sessionId) || sessionId`. -/
def getAlias (st : IamState) (sessionId : String) : String :=
  (st.sessionToAlias sessionId).getD sessionId

/-- `registerSession` (src/index.ts:170-178). -/
def registerSession (st : IamState) (sessionId : String) : IamState :=
  if sessionId ∈ st.activeSessions then st
  else
    let a0 := getNextAliasStr st.nextAgentIndex
    { st with
      activeSessions := st.activeSessions ++ [sessionId]
      sessionToAlias := fun s => if s = sessionId then some a0 else st.sessionToAlias s
      aliasToSession := fun a => if a = a0 then some sessionId else st.aliasToSession a
      nextAgentIndex := st.nextAgentIndex + 1 }

/-! ### C1: the id ↔ alias mapping is a bijection -/

/-- Registry invariant: the active set is exactly the domain of
`sessionToAlias`, `aliasToSession` inverts it, and every assigned alias was
produced by `getNextAlias` at some index below the current one. -/
def RegInv (st : IamState) : Prop :=
  (∀ s, s ∈ st.activeSessions ↔ (st.sessionToAlias s).isSome) ∧
  (∀ s a, st.sessionToAlias s = some a → st.aliasToSession a = some s) ∧
  (∀ a s, st.aliasToSession a = some s →
    (∃ k, k < st.nextAgentIndex ∧ a = getNextAliasStr k) ∧ st.sessionToAlias s = some a)

theorem regInv_init : RegInv iamInit := by
  refine ⟨fun s => ?_, fun s a h => ?_, fun a s h => ?_⟩ <;> simp [iamInit] at *

theorem regInv_registerSession (st : IamState) (sessionId : String) (h : RegInv st) :
    RegInv (registerSession st sessionId) := by
  obtain ⟨h1, h2, h3⟩ := h
  rw [registerSession]
  by_cases hmem : sessionId ∈ st.activeSessions
  · rw [if_pos hmem]
    exact ⟨h1, h2, h3⟩
  · rw [if_neg hmem]
    -- the freshly generated alias is not yet in use
    have hfresh : st.aliasToSession (getNextAliasStr st.nextAgentIndex) = none := by
      cases hone : st.aliasToSession (getNextAliasStr st.nextAgentIndex) with
      | none => rfl
      | some s =>
        obtain ⟨⟨k, hk, hak⟩, _⟩ := h3 _ _ hone
        exact absurd (getNextAliasStr_injective hak) (by omega)
    have hnew : st.sessionToAlias sessionId = none := by
      cases hone : st.sessionToAlias sessionId with
      | none => rfl
      | some a => exact absurd ((h1 sessionId).mpr (by simp [hone])) hmem
    refine ⟨fun s => ?_, fun s a ha => ?_, fun a s ha => ?_⟩
    · by_cases hs : s = sessionId <;> simp [hs, h1 s, hmem]
    · dsimp only at ha ⊢
      by_cases hs : s = sessionId
      · subst hs
        rw [if_pos rfl] at ha
        rw [if_pos (Option.some.inj ha).symm]
      · rw [if_neg hs] at ha
        have := h2 s a ha
        have hne : a ≠ getNextAliasStr st.nextAgentIndex := by
          intro he; rw [he, hfresh] at this; cases this
        rw [if_neg hne]
        exact this
    · dsimp only at ha ⊢
      by_cases haeq : a = getNextAliasStr st.nextAgentIndex
      · subst haeq
        rw [if_pos rfl] at ha
        have hseq := (Option.some.inj ha).symm
        subst hseq
        exact ⟨⟨st.nextAgentIndex, by omega, rfl⟩, by rw [if_pos rfl]⟩
      · rw [if_neg haeq] at ha
        obtain ⟨⟨k, hk, hak⟩, hsa⟩ := h3 a s ha
        have hsne : s ≠ sessionId := by
          intro he; rw [he, hnew] at hsa; cases hsa
        exact ⟨⟨k, by omega, hak⟩, by rw [if_neg hsne]; exact hsa⟩

/-- The registry state after a sequence of `registerSession` calls from
the module-load state. -/
def regFold (ids : List String) : IamState :=
  ids.foldl registerSession iamInit

theorem regInv_fold (ids : List String) : RegInv (regFold ids) := by
  rw [regFold]
  suffices h : ∀ st, RegInv st → RegInv (ids.foldl registerSession st) from
    h iamInit regInv_init
  induction ids with
  | nil => exact fun st h => h
  | cons i is ih => exact fun st h => ih _ (regInv_registerSession st i h)

theorem registerSession_mem_eq (st : IamState) (s : String)
    (h : s ∈ st.activeSessions) : registerSession st s = st := by
  rw [registerSession, if_pos h]

/-- C1.  For every sequence of registration calls (`registerSession`, the
code-level `registerOrGetAlias`), starting from the module-load state:
each registered session id has exactly one alias; a repeated call for an
already-registered id is a no-op (it allocates nothing and leaves
`sessionToAlias` / `aliasToSession`, and the rest of the state,
unchanged); no two distinct ids share an alias; and `sessionToAlias` /
`aliasToSession` are mutually inverse (the id ↔ alias mapping is a
bijection between the active ids and the assigned aliases).  The alias
injectivity relies on `getNextAliasStr_injective`, which covers indices
≥ 26 where the alias gains a numeric suffix. -/
theorem alias_registry_bijection (ids : List String) :
    (∀ s, s ∈ (regFold ids).activeSessions → ∃! a, (regFold ids).sessionToAlias s = some a) ∧
    (∀ s, s ∈ (regFold ids).activeSessions → registerSession (regFold ids) s = regFold ids) ∧
    (∀ s1 s2 a, (regFold ids).sessionToAlias s1 = some a →
      (regFold ids).sessionToAlias s2 = some a → s1 = s2) ∧
    (∀ s a, (regFold ids).sessionToAlias s = some a ↔
      (regFold ids).aliasToSession a = some s) := by
  obtain ⟨h1, h2, h3⟩ := regInv_fold ids
  refine ⟨fun s hs => ?_, fun s hs => registerSession_mem_eq (regFold ids) s hs,
    fun s1 s2 a ha1 ha2 => ?_,
    fun s a => ⟨h2 s a, fun h => (h3 a s h).2⟩⟩
  · obtain ⟨a, ha⟩ := Option.isSome_iff_exists.mp ((h1 s).mp hs)
    exact ⟨a, ha, fun a' ha' => by rw [ha'] at ha; exact (Option.some.inj ha)⟩
  · have := h2 s1 a ha1
    rw [h2 s2 a ha2] at this
    exact (Option.some.inj this).symm

/-- Witness for C1 at a concrete input: after registering `"s1"`, `"s2"`
and `"s1"` again, re-registering `"s1"` is a no-op and `"s1"`'s alias is
uniquely assigned. -/
theorem alias_registry_bijection_witness :
    registerSession (regFold ["s1", "s2", "s1"]) "s1" = regFold ["s1", "s2", "s1"] :=
  (alias_registry_bijection ["s1", "s2", "s1"]).2.1 "s1" (by
    simp only [regFold, List.foldl_cons, List.foldl_nil]
    simp [registerSession, iamInit])

/-! ### Core messaging functions (src/index.ts:97-168) -/

/-- `sendMessage` (src/index.ts:97-110); `generateId()` and `Date.now()`
results are the `id` / `ts` parameters.  Returns the new state and the
created message (`getInbox(to).push(message)`). -/
def sendMessage (st : IamState) (from_ to_ body : String) (id : String) (ts : Nat) :
    IamState × Message :=
  let message : Message :=
    { id := id, from_ := from_, to_ := to_, body := body, timestamp := ts, read := false }
  ({ st with inboxes := fun r => if r = to_ then st.inboxes to_ ++ [message] else st.inboxes r },
    message)

/-- `getUnreadMessages` (src/index.ts:112-114). -/
def getUnreadMessages (st : IamState) (sessionId : String) : List Message :=
  (st.inboxes sessionId).filter (fun m => !m.read)

/-- `getAllMessages` (src/index.ts:116-118). -/
def getAllMessages (st : IamState) (sessionId : String) : List Message :=
  st.inboxes sessionId

/-- `markAllRead` (src/index.ts:120-127): sets `read := true` on every
message of the session's inbox. -/
def markAllRead (st : IamState) (sessionId : String) : IamState :=
  { st with inboxes := fun r =>
      if r = sessionId then (st.inboxes sessionId).map (fun m => { m with read := true })
      else st.inboxes r }

/-- `markMessagesFromSenderAsRead` (src/index.ts:130-150): marks unread
messages whose `from` equals the sender's alias. -/
def markMessagesFromSenderAsRead (st : IamState) (sessionId senderSessionId : String) :
    IamState :=
  let senderAlias := getAlias st senderSessionId
  { st with inboxes := fun r =>
      if r = sessionId then
        (st.inboxes sessionId).map (fun m =>
          if !m.read && m.from_ = senderAlias then { m with read := true } else m)
      else st.inboxes r }

/-- The mailbox effect of the `experimental.chat.messages.transform` hook
(src/index.ts:448-495): when the session has unread messages, each unread
message is surfaced and then mutated to `read = true` (`msg.read = true`);
already-read messages are untouched.  When there are no unread messages the
hook returns early. -/
def injectUnread (st : IamState) (sessionId : String) : IamState :=
  if getUnreadMessages st sessionId = [] then st
  else
    { st with inboxes := fun r =>
        if r = sessionId then
          (st.inboxes sessionId).map (fun m => if !m.read then { m with read := true } else m)
        else st.inboxes r }

/-- `getKnownAgents` (src/index.ts:152-161): aliases of all active sessions
except self, in registration order. -/
def getKnownAgents (st : IamState) (sessionId : String) : List String :=
  (st.activeSessions.filter (fun id => id ≠ sessionId)).map (getAlias st)

/-- `setDescription` (src/index.ts:57-61). -/
def setDescription (st : IamState) (sessionId description : String) : IamState :=
  let a0 := getAlias st sessionId
  { st with agentDescriptions := fun a => if a = a0 then some description else st.agentDescriptions a }

/-- `getParallelAgents` (src/index.ts:163-168). -/
def getParallelAgents (st : IamState) (sessionId : String) : List (String × Option String) :=
  (getKnownAgents st sessionId).map (fun a => (a, st.agentDescriptions a))

/-- `resolveAlias` (src/index.ts:72-80): the special `"parent"` token, then
alias lookup, then raw session id if active. -/
def resolveAlias (st : IamState) (aliasOrSessionId : String) (parentId : Option String) :
    Option String :=
  if aliasOrSessionId = "parent" ∧ jsTruthyStr parentId then parentId
  else
    match st.aliasToSession aliasOrSessionId with
    | some sid => some sid
    | none => if aliasOrSessionId ∈ st.activeSessions then some aliasOrSessionId else none

/-! ### The `announce` and `broadcast` tool bodies (src/index.ts:293-410)

The returned prompt strings (src/unnamed/part_000) are presentation; the
tool outcome is modelled structurally. -/

inductive AnnounceResult
  | missingMessage
  | announced (alias0 : String) (parallelAgents : List (String × Option String))
deriving DecidableEq, Repr

/-- `announce.execute` (src/index.ts:298-315). -/
def announce (st0 : IamState) (sessionId : String) (message : Option String) :
    IamState × AnnounceResult :=
  let st := registerSession st0 sessionId
  let a0 := getAlias st sessionId
  if jsTruthyStr message then
    let st' := setDescription st sessionId (message.getD "")
    (st', .announced a0 (getParallelAgents st' sessionId))
  else (st, .missingMessage)

inductive BroadcastResult
  | missingMessage
  | noAgents
  | unknownRecipient (target : String) (knownAgents : List String)
  | noValidRecipients
  | sent (targets : List String) (messageId : String)
deriving DecidableEq, Repr

/-- The recipient-resolution loop of `broadcast.execute`
(src/index.ts:352-365): resolve each target in order, return early on the
first unknown one, and skip (`continue`) any target that resolves to the
sender itself. -/
def resolveRecipients (st : IamState) (sessionId : String) (parentId : Option String) :
    List String → Except String (List String)
  | [] => .ok []
  | t :: ts =>
    match resolveAlias st t parentId with
    | none => .error t
    | some rid =>
      if rid = sessionId then resolveRecipients st sessionId parentId ts
      else (resolveRecipients st sessionId parentId ts).map (fun rs => rid :: rs)

/-- The delivery loop of `broadcast.execute` (src/index.ts:374-387): one
`sendMessage` per recipient; `messageId` starts as `""` and ends as the id
of the last message sent.  The k-th send uses `ids k` / `now`. -/
def deliverAll (alias0 body : String) (ids : Nat → String) (now : Nat) :
    IamState → String → Nat → List String → IamState × String
  | st, mid, _, [] => (st, mid)
  | st, _, k, r :: rs =>
    let (st', msg) := sendMessage st alias0 r body (ids k) now
    deliverAll alias0 body ids now st' msg.id (k + 1) rs

/-- The target-alias computation of `broadcast.execute`
(src/index.ts:340-344): `!args.to || args.to.toLowerCase() === "all"` keeps
all known agents, otherwise `args.to.split(",").map(trim).filter(Boolean)`. -/
def targetAliasesOf (knownAgents : List String) (to? : Option String) : List String :=
  match to? with
  | none => knownAgents
  | some t =>
    if t = "" ∨ jsToLower t = "all" then knownAgents
    else ((splitOnChar ',' t.data).map (fun l => String.mk (trimChars l))).filter (fun s => s ≠ "")

/-- `broadcast.execute` (src/index.ts:324-409).  The best-effort
`notify_once` call to the parent (wrapped in try/catch, no effect on the
modelled state) is dropped. -/
def broadcast (st0 : IamState) (sessionId : String) (to? message : Option String)
    (parentId : Option String) (ids : Nat → String) (now : Nat) :
    IamState × BroadcastResult :=
  let st := registerSession st0 sessionId
  let a0 := getAlias st sessionId
  if jsTruthyStr message then
    let body := message.getD ""
    let knownAgents := getKnownAgents st sessionId
    let targetAliases := targetAliasesOf knownAgents to?
    if targetAliases = [] then (st, .noAgents)
    else
      match resolveRecipients st sessionId parentId targetAliases with
      | .error t => (st, .unknownRecipient t knownAgents)
      | .ok recipientSessions =>
        if recipientSessions = [] then (st, .noValidRecipients)
        else
          let (st', mid) := deliverAll a0 body ids now st "" 0 recipientSessions
          (st', .sent targetAliases mid)
  else (st, .missingMessage)

/-! ### C2 / C10 helper lemmas -/

theorem registerSession_inboxes (st : IamState) (s : String) :
    (registerSession st s).inboxes = st.inboxes := by
  rw [registerSession]
  split <;> rfl

theorem mem_registerSession (st : IamState) (s : String) :
    s ∈ (registerSession st s).activeSessions := by
  rw [registerSession]
  split
  · assumption
  · simp

/-- The resolution loop never keeps a recipient equal to the sender: the
`continue` branch drops every target resolving to `sessionId`. -/
theorem resolveRecipients_not_self (st : IamState) (sessionId : String)
    (parentId : Option String) (ts : List String) (rs : List String)
    (h : resolveRecipients st sessionId parentId ts = .ok rs) : sessionId ∉ rs := by
  induction ts generalizing rs with
  | nil =>
    rw [resolveRecipients] at h
    cases h
    simp
  | cons t ts ih =>
    rw [resolveRecipients] at h
    cases hres : resolveAlias st t parentId with
    | none => rw [hres] at h; cases h
    | some rid =>
      rw [hres] at h
      dsimp only at h
      by_cases hself : rid = sessionId
      · rw [if_pos hself] at h
        exact ih rs h
      · rw [if_neg hself] at h
        cases hrec : resolveRecipients st sessionId parentId ts with
        | error e => rw [hrec] at h; cases h
        | ok rs' =>
          rw [hrec] at h
          cases h
          intro hmem
          rcases List.mem_cons.mp hmem with hh | hh
          · exact hself hh.symm
          · exact ih rs' hrec hh

/-- Delivery only appends to the inboxes of the listed recipients. -/
theorem deliverAll_inboxes_not_mem (alias0 body : String) (ids : Nat → String) (now : Nat)
    (rs : List String) (st : IamState) (mid : String) (k : Nat) (r : String)
    (h : r ∉ rs) : (deliverAll alias0 body ids now st mid k rs).1.inboxes r = st.inboxes r := by
  induction rs generalizing st mid k with
  | nil => rfl
  | cons r' rs' ih =>
    rw [deliverAll]
    have hr' : r ≠ r' := fun he => h (he ▸ List.mem_cons_self r' rs')
    have hrs' : r ∉ rs' := fun hm => h (List.mem_cons_of_mem _ hm)
    rw [ih _ _ _ hrs']
    simp [sendMessage, hr']

/-- C2.  For every `broadcast` call: (i) nothing is ever appended to the
sender's own inbox — any target resolving to the caller's session id is
dropped before the delivery loop runs; and (ii) if the resolved recipient
set is empty after self-filtering, the call returns the
`noValidRecipients` report and leaves every inbox exactly as it was. -/
theorem broadcast_no_self_delivery (st0 : IamState) (sessionId : String)
    (to? message parentId : Option String) (ids : Nat → String) (now : Nat) :
    ((broadcast st0 sessionId to? message parentId ids now).1.inboxes sessionId
        = st0.inboxes sessionId) ∧
    (jsTruthyStr message = true →
      targetAliasesOf (getKnownAgents (registerSession st0 sessionId) sessionId) to? ≠ [] →
      resolveRecipients (registerSession st0 sessionId) sessionId parentId
        (targetAliasesOf (getKnownAgents (registerSession st0 sessionId) sessionId) to?)
          = .ok [] →
      broadcast st0 sessionId to? message parentId ids now
          = (registerSession st0 sessionId, .noValidRecipients) ∧
        ∀ r, (broadcast st0 sessionId to? message parentId ids now).1.inboxes r
          = st0.inboxes r) := by
  have hreg := registerSession_inboxes st0 sessionId
  constructor
  · rw [broadcast]
    by_cases hm : jsTruthyStr message = true
    swap
    · rw [if_neg hm]
      exact congrFun hreg sessionId
    · rw [if_pos hm]
      dsimp only
      split
      · rw [hreg]
      · cases hres : resolveRecipients (registerSession st0 sessionId) sessionId parentId
            (targetAliasesOf (getKnownAgents (registerSession st0 sessionId) sessionId) to?) with
        | error t => simp only [hres]; rw [hreg]
        | ok recipients =>
          simp only [hres]
          split
          · rw [hreg]
          · dsimp only
            rw [deliverAll_inboxes_not_mem _ _ _ _ _ _ _ _ _
              (resolveRecipients_not_self _ _ _ _ _ hres), hreg]
  · intro hm hta hok
    have hb : broadcast st0 sessionId to? message parentId ids now
        = (registerSession st0 sessionId, .noValidRecipients) := by
      rw [broadcast, if_pos hm]
      dsimp only
      rw [if_neg hta, hok]
      rfl
    exact ⟨hb, fun r => by rw [hb]; exact congrFun hreg r⟩

/-- Witness for C2 at a concrete input: a single registered agent
broadcasting to its own alias `"agentA"` hits the empty-after-self-filter
case: the result is `noValidRecipients` and its (empty) inbox is
untouched. -/
theorem broadcast_no_self_delivery_witness :
    broadcast (registerSession iamInit "s1") "s1" (some "agentA") (some "hi") none
        (fun _ => "m0") 0
      = (registerSession (registerSession iamInit "s1") "s1", .noValidRecipients) :=
  ((broadcast_no_self_delivery (registerSession iamInit "s1") "s1" (some "agentA")
      (some "hi") none (fun _ => "m0") 0).2 (by decide) (by decide) rfl).1

/-- C10.  Both `announce.execute` and `broadcast.execute` call
`registerSession` before validating `args.message`: a call that fails with
the missing-message error has still durably registered the caller (the
caller is in the active set afterwards), while the mailboxes are
untouched — the error return is not atomic with respect to registry
state. -/
theorem register_before_validate (st0 : IamState) (sessionId : String)
    (to? message parentId : Option String) (ids : Nat → String) (now : Nat)
    (h : jsTruthyStr message = false) :
    announce st0 sessionId message = (registerSession st0 sessionId, .missingMessage) ∧
    broadcast st0 sessionId to? message parentId ids now
      = (registerSession st0 sessionId, .missingMessage) ∧
    sessionId ∈ (registerSession st0 sessionId).activeSessions ∧
    (registerSession st0 sessionId).inboxes = st0.inboxes := by
  have hb : jsTruthyStr message ≠ true := by rw [h]; exact Bool.false_ne_true
  refine ⟨?_, ?_, mem_registerSession st0 sessionId, registerSession_inboxes st0 sessionId⟩
  · rw [announce, if_neg hb]
  · rw [broadcast, if_neg hb]

/-- Witness for C10 at a concrete input: `announce`/`broadcast` with a
missing `message` argument still register session `"s9"`. -/
theorem register_before_validate_witness :
    announce iamInit "s9" none = (registerSession iamInit "s9", .missingMessage) ∧
    "s9" ∈ (registerSession iamInit "s9").activeSessions :=
  ⟨(register_before_validate iamInit "s9" none none none (fun _ => "") 0 (by decide)).1,
    (register_before_validate iamInit "s9" none none none (fun _ => "") 0 (by decide)).2.2.1⟩

/-! ### C3 / C4: FIFO order and read-flag monotonicity -/

/-- The store operations that touch message read state (C3/C4):
`sendMessage`, `markAllRead`, `markMessagesFromSenderAsRead`, and the
mailbox effect of the injection transform. -/
inductive StoreOp
  | send (from_ to_ body id : String) (ts : Nat)
  | markAll (sessionId : String)
  | markFromSender (sessionId senderSessionId : String)
  | inject (sessionId : String)
deriving DecidableEq, Repr

def applyOp (st : IamState) : StoreOp → IamState
  | .send f t b i ts => (sendMessage st f t b i ts).1
  | .markAll s => markAllRead st s
  | .markFromSender s snd => markMessagesFromSenderAsRead st s snd
  | .inject s => injectUnread st s

/-- One requested send (arguments of one `sendMessage` call). -/
structure SendReq where
  from_ : String
  to_ : String
  body : String
  id : String
  ts : Nat
deriving DecidableEq, Repr

/-- Applying a sequence of sends. -/
def sendsFold (st : IamState) (reqs : List SendReq) : IamState :=
  reqs.foldl (fun s q => (sendMessage s q.from_ q.to_ q.body q.id q.ts).1) st

/-- The messages a sequence of sends queues for recipient `r`, in order. -/
def msgsTo (r : String) (reqs : List SendReq) : List Message :=
  (reqs.filter (fun q => q.to_ = r)).map
    (fun q => { id := q.id, from_ := q.from_, to_ := q.to_, body := q.body,
                timestamp := q.ts, read := false })

theorem unread_sendMessage (st : IamState) (f t b id : String) (ts : Nat) (r : String) :
    getUnreadMessages (sendMessage st f t b id ts).1 r =
      getUnreadMessages st r ++
        (if t = r then
          [{ id := id, from_ := f, to_ := t, body := b, timestamp := ts, read := false }]
         else []) := by
  by_cases h : t = r
  · subst h
    simp [getUnreadMessages, sendMessage]
  · have hne : ¬ r = t := fun he => h he.symm
    simp [getUnreadMessages, sendMessage, hne, h]

/-- Mapping a function that either keeps a message or only flips `read` to
`true` turns the unread list into a sublist of the old one (in particular
the relative order of the surviving unread messages is unchanged). -/
theorem filter_unread_map_sublist (l : List Message) (f : Message → Message)
    (hf : ∀ m, f m = m ∨ f m = { m with read := true }) :
    ((l.map f).filter (fun m => !m.read)).Sublist (l.filter (fun m => !m.read)) := by
  induction l with
  | nil => simp
  | cons m ms ih =>
    rw [List.map_cons, List.filter_cons, List.filter_cons]
    rcases hf m with hm | hm <;> rw [hm]
    · split
      · exact ih.cons₂ m
      · exact ih
    · simp only [Bool.not_true, Bool.false_eq_true, if_neg, reduceIte]
      split
      · exact ih.cons m
      · exact ih

/-- C3.  Per-recipient FIFO: a sequence of sends appends to the recipient's
unread list exactly the sent messages in send order, and each of the three
read-marking operations (`markAllRead`, `markMessagesFromSenderAsRead`,
injection) turns the unread list into a sublist of the previous one, so the
relative order of the remaining unread messages never changes. -/
theorem unread_fifo (st : IamState) (r : String) :
    (∀ reqs : List SendReq,
      getUnreadMessages (sendsFold st reqs) r = getUnreadMessages st r ++ msgsTo r reqs) ∧
    (∀ sid, (getUnreadMessages (markAllRead st sid) r).Sublist (getUnreadMessages st r)) ∧
    (∀ sid snd,
      (getUnreadMessages (markMessagesFromSenderAsRead st sid snd) r).Sublist
        (getUnreadMessages st r)) ∧
    (∀ sid, (getUnreadMessages (injectUnread st sid) r).Sublist (getUnreadMessages st r)) := by
  refine ⟨?_, fun sid => ?_, fun sid snd => ?_, fun sid => ?_⟩
  · intro reqs
    induction reqs generalizing st with
    | nil => simp [sendsFold, msgsTo]
    | cons q qs ih =>
      rw [sendsFold, List.foldl_cons]
      have hq := ih (sendMessage st q.from_ q.to_ q.body q.id q.ts).1
      rw [sendsFold] at hq
      rw [hq, unread_sendMessage]
      by_cases hqr : q.to_ = r <;> simp [msgsTo, List.filter_cons, hqr]
  · rw [markAllRead, getUnreadMessages, getUnreadMessages]
    dsimp only
    by_cases h : r = sid
    · subst h
      rw [if_pos rfl]
      exact filter_unread_map_sublist _ _ (fun m => Or.inr rfl)
    · rw [if_neg h]
  · rw [markMessagesFromSenderAsRead, getUnreadMessages, getUnreadMessages]
    dsimp only
    by_cases h : r = sid
    · subst h
      rw [if_pos rfl]
      refine filter_unread_map_sublist _ _ (fun m => ?_)
      dsimp only
      split
      · exact Or.inr rfl
      · exact Or.inl rfl
    · rw [if_neg h]
  · rw [injectUnread]
    split
    · exact List.Sublist.refl _
    · rw [getUnreadMessages, getUnreadMessages]
      dsimp only
      by_cases h : r = sid
      · subst h
        rw [if_pos rfl]
        refine filter_unread_map_sublist _ _ (fun m => ?_)
        split
        · exact Or.inr rfl
        · exact Or.inl rfl
      · rw [if_neg h]

/-- Witness for C3 at a concrete input: two sends to `"s2"` show up in the
unread list in send order, and `markAllRead` yields a sublist. -/
theorem unread_fifo_witness :
    getUnreadMessages
        (sendsFold iamInit
          [{ from_ := "agentA", to_ := "s2", body := "m1", id := "i1", ts := 1 },
           { from_ := "agentB", to_ := "s2", body := "m2", id := "i2", ts := 2 }]) "s2"
      = [{ id := "i1", from_ := "agentA", to_ := "s2", body := "m1", timestamp := 1, read := false },
         { id := "i2", from_ := "agentB", to_ := "s2", body := "m2", timestamp := 2, read := false }] := by
  rw [(unread_fifo iamInit "s2").1
    [{ from_ := "agentA", to_ := "s2", body := "m1", id := "i1", ts := 1 },
     { from_ := "agentB", to_ := "s2", body := "m2", id := "i2", ts := 2 }]]
  decide

/-- C4.  Read flags are monotone: `sendMessage` creates messages with
`read = false`, every store operation at most extends an inbox, and a
message whose `read` flag is `true` keeps it `true` at the same inbox
position after any operation.  (`Message` in src/index.ts has no `handled`
field — the handled half of the claim is vacuous for this store.) -/
theorem read_flag_monotone (op : StoreOp) (st : IamState) (r : String) :
    (∀ f t b id ts, (sendMessage st f t b id ts).2.read = false) ∧
    (st.inboxes r).length ≤ ((applyOp st op).inboxes r).length ∧
    (∀ (i : Nat) (m m' : Message),
      (st.inboxes r)[i]? = some m → ((applyOp st op).inboxes r)[i]? = some m' →
      m.read = true → m'.read = true) := by
  refine ⟨fun f t b id ts => rfl, ?_, ?_⟩
  · cases op with
    | send f t b id ts =>
      dsimp only [applyOp, sendMessage]
      by_cases h : r = t
      · subst h
        rw [if_pos rfl, List.length_append]
        omega
      · rw [if_neg h]
    | markAll sid =>
      dsimp only [applyOp, markAllRead]
      by_cases h : r = sid
      · subst h
        rw [if_pos rfl, List.length_map]
      · rw [if_neg h]
    | markFromSender sid snd =>
      dsimp only [applyOp, markMessagesFromSenderAsRead]
      by_cases h : r = sid
      · subst h
        rw [if_pos rfl, List.length_map]
      · rw [if_neg h]
    | inject sid =>
      rw [applyOp, injectUnread]
      split
      · exact Nat.le_refl _
      · dsimp only
        by_cases h : r = sid
        · subst h
          rw [if_pos rfl, List.length_map]
        · rw [if_neg h]
  · intro i m m' hm hm' hread
    have hlen : i < (st.inboxes r).length := by
      obtain ⟨hh, -⟩ := List.getElem?_eq_some_iff.mp hm
      exact hh
    cases op with
    | send f t b id ts =>
      dsimp only [applyOp, sendMessage] at hm'
      by_cases hr : r = t
      · subst hr
        rw [if_pos rfl, List.getElem?_append, if_pos hlen, hm] at hm'
        cases hm'
        exact hread
      · rw [if_neg hr, hm] at hm'
        cases hm'
        exact hread
    | markAll sid =>
      dsimp only [applyOp, markAllRead] at hm'
      by_cases hr : r = sid
      · subst hr
        rw [if_pos rfl, List.getElem?_map, hm] at hm'
        cases hm'
        rfl
      · rw [if_neg hr, hm] at hm'
        cases hm'
        exact hread
    | markFromSender sid snd =>
      dsimp only [applyOp, markMessagesFromSenderAsRead] at hm'
      by_cases hr : r = sid
      · subst hr
        rw [if_pos rfl, List.getElem?_map, hm] at hm'
        cases hm'
        dsimp only
        split
        · rfl
        · exact hread
      · rw [if_neg hr, hm] at hm'
        cases hm'
        exact hread
    | inject sid =>
      rw [applyOp, injectUnread] at hm'
      by_cases hu : getUnreadMessages st sid = []
      · rw [if_pos hu, hm] at hm'
        cases hm'
        exact hread
      · rw [if_neg hu] at hm'
        dsimp only at hm'
        by_cases hr : r = sid
        · subst hr
          rw [if_pos rfl, List.getElem?_map, hm] at hm'
          cases hm'
          dsimp only
          split
          · rfl
          · exact hread
        · rw [if_neg hr, hm] at hm'
          cases hm'
          exact hread

/-- Witness for C4 at a concrete input: `markAllRead` keeps an
already-read message read at position 0. -/
theorem read_flag_monotone_witness :
    ∀ m', ((applyOp
        { iamInit with inboxes := fun r =>
            if r = "s2" then
              [{ id := "i1", from_ := "agentA", to_ := "s2", body := "m", timestamp := 1,
                 read := true }]
            else [] }
        (.markAll "s2")).inboxes "s2")[0]? = some m' → m'.read = true :=
  fun m' hm' =>
    (read_flag_monotone (.markAll "s2")
      { iamInit with inboxes := fun r =>
          if r = "s2" then
            [{ id := "i1", from_ := "agentA", to_ := "s2", body := "m", timestamp := 1,
               read := true }]
          else [] } "s2").2.2 0
      { id := "i1", from_ := "agentA", to_ := "s2", body := "m", timestamp := 1, read := true }
      m' (by decide) hm' (by decide)

/-! ### The thread tracker (src/unnamed/part_002)

Module-level mutable state: `threads : Map<string, Thread>` (keys are
always `thread.id`, so it is modelled as an insertion-ordered list of
threads with `get` = first match on `id` and `set` = replace-or-append),
`pendingUpdates : Map<string, ThreadUpdate[]>` and
`sessionThreads : Map<string, Set<string>>` (total functions with
default `[]`), plus `inboxDir`.  File writes (`fs.writeFile`) are I/O and
dropped; `Date.now()` and `generateThreadId()` results are parameters. -/

structure Thread where
  id : String
  filePath : String
  participants : List String
  subject : Option String
  createdAt : Nat
  updatedAt : Nat
  lastAuthor : String
deriving DecidableEq, Repr

structure ThreadUpdate where
  threadId : String
  filePath : String
  from_ : String
  to_ : String
  subject : Option String
  timestamp : Nat
  read : Bool
deriving DecidableEq, Repr

structure InboxState where
  inboxDir : String
  threads : List Thread
  pendingUpdates : String → List ThreadUpdate
  sessionThreads : String → List String

/-- `threads.get(id)` / `threads.has(id)`: keys are thread ids. -/
def threadsGet (l : List Thread) (id : String) : Option Thread :=
  l.find? (fun t => t.id = id)

/-- `threads.set(t.id, t)`: replace the entry with the same id in place
(JS `Map.set` keeps insertion order), else append. -/
def threadsSet : List Thread → Thread → List Thread
  | [], t => [t]
  | u :: us, t => if u.id = t.id then t :: us else u :: threadsSet us t

/-- `participants.forEach(p => if (!thread.participants.includes(p))
thread.participants.push(p))`. -/
def pushMissing (ps newPs : List String) : List String :=
  newPs.foldl (fun acc p => if p ∈ acc then acc else acc ++ [p]) ps

/-- `sessionThreads` membership tracking loop (src/unnamed/part_002:135-141
and 217-222). -/
def trackMembership (m : String → List String) (participants : List String) (tid : String) :
    String → List String :=
  participants.foldl
    (fun acc p => fun q =>
      if q = p then (if tid ∈ acc p then acc p else acc p ++ [tid]) else acc q) m

/-- The `ThreadUpdate` record built for one participant
(src/unnamed/part_002:155-163 and 243-251). -/
def mkUpdate (thread : Thread) (from_ to_ : String) (now : Nat) : ThreadUpdate :=
  { threadId := thread.id, filePath := thread.filePath, from_ := from_, to_ := to_,
    subject := thread.subject, timestamp := now, read := false }

/-- The coalescing upsert on one recipient's pending list
(src/unnamed/part_002:152-170 / 240-257): `findIndex` on the thread id,
replace in place if found, else push. -/
def upsertUpdate (updates : List ThreadUpdate) (u : ThreadUpdate) : List ThreadUpdate :=
  match updates.findIdx? (fun v => v.threadId = u.threadId) with
  | some i => updates.set i u
  | none => updates ++ [u]

/-- One iteration of the update-queueing loop: skip the author
(`if (participant === from) continue`), otherwise upsert that
participant\'s pending list. -/
def queueStep (thread : Thread) (from_ : String) (now : Nat)
    (acc : String → List ThreadUpdate) (p : String) : String → List ThreadUpdate :=
  if p = from_ then acc
  else fun q =>
    if q = p then upsertUpdate (acc p) (mkUpdate thread from_ p now) else acc q

/-- The per-participant update-queueing loop shared verbatim by
`createOrUpdateThread` (lines 143-171) and `notifyThreadUpdate`
(lines 230-259): for every participant except the author, upsert a fresh
update keyed by the thread id. -/
def queueUpdates (pu : String → List ThreadUpdate) (thread : Thread) (from_ : String)
    (now : Nat) : String → List ThreadUpdate :=
  thread.participants.foldl (queueStep thread from_ now) pu

/-- `notifyThreadUpdate` (src/unnamed/part_002:230-259). -/
def notifyThreadUpdate (st : InboxState) (thread : Thread) (from_ : String) (now : Nat) :
    InboxState :=
  { st with pendingUpdates := queueUpdates st.pendingUpdates thread from_ now }

/-- `createOrUpdateThread` (src/unnamed/part_002:66-174).  `now` models
`Date.now()`, `freshId` the `generateThreadId()` result.  Returns the
thread the call resolves to plus the new state. -/
def createOrUpdateThread (st : InboxState) (from_ to_ body : String) (subject : Option String)
    (existingFilePath existingThreadId : Option String) (now : Nat) (freshId : String) :
    Thread × InboxState :=
  let participants := [from_, to_].filter (fun s => s ≠ "")
  -- `if (existingThreadId && threads.has(existingThreadId)) ... else if (existingFilePath) ...`
  let thread? : Option Thread :=
    if jsTruthyStr existingThreadId ∧ (threadsGet st.threads (existingThreadId.getD "")).isSome
    then
      (threadsGet st.threads (existingThreadId.getD "")).map (fun t =>
        { t with updatedAt := now, lastAuthor := from_,
                 participants := pushMissing t.participants participants })
    else if jsTruthyStr existingFilePath then
      (st.threads.find? (fun t => t.filePath = existingFilePath.getD "")).map (fun t =>
        { t with updatedAt := now, lastAuthor := from_ })
    else none
  let thread :=
    match thread? with
    | some t => t
    | none =>
      let threadId := if jsTruthyStr existingThreadId then existingThreadId.getD "" else freshId
      let filePath :=
        if jsTruthyStr existingFilePath then existingFilePath.getD ""
        else st.inboxDir ++ "/" ++ (threadId ++ ".md")
      { id := threadId, filePath := filePath, participants := participants, subject := subject,
        createdAt := now, updatedAt := now, lastAuthor := from_ }
  -- object mutation / `threads.set` both land the thread in the map under its id
  let st1 := { st with threads := threadsSet st.threads thread }
  let st2 := { st1 with sessionThreads := trackMembership st1.sessionThreads thread.participants thread.id }
  (thread, { st2 with pendingUpdates := queueUpdates st2.pendingUpdates thread from_ now })

/-- `trackExternalThread` (src/unnamed/part_002:179-225): scans the tracked
threads for one with the given `filePath` and updates it in place, else
creates a new thread under `threadId || generateThreadId()`. -/
def trackExternalThread (st : InboxState) (filePath from_ to_ : String)
    (threadId subject : Option String) (participants : Option (List String))
    (now : Nat) (freshId : String) : Thread × InboxState :=
  let id := if jsTruthyStr threadId then threadId.getD "" else freshId
  -- `participants || [from, to].filter(Boolean)` (a JS array is always truthy)
  let allParticipants :=
    match participants with
    | some ps => ps
    | none => [from_, to_].filter (fun s => s ≠ "")
  match st.threads.find? (fun t => t.filePath = filePath) with
  | some t =>
    let t' := { t with updatedAt := now, lastAuthor := from_,
                       participants := pushMissing t.participants allParticipants }
    (t', { st with threads := threadsSet st.threads t' })
  | none =>
    let thread : Thread :=
      { id := id, filePath := filePath, participants := allParticipants, subject := subject,
        createdAt := now, updatedAt := now, lastAuthor := from_ }
    let st1 := { st with threads := threadsSet st.threads thread }
    (thread,
      { st1 with sessionThreads := trackMembership st1.sessionThreads allParticipants id })

/-- `markThreadRead` (src/unnamed/part_002:275-284): keep the updates whose
`filePath` neither equals the given path nor is a suffix of it
(`u.filePath !== filePath && !filePath.endsWith(u.filePath)`). -/
def markThreadRead (st : InboxState) (sessionId filePath : String) : InboxState :=
  { st with pendingUpdates := fun q =>
      if q = sessionId then
        (st.pendingUpdates sessionId).filter (fun u =>
          !(u.filePath == filePath) && !jsEndsWith filePath u.filePath)
      else st.pendingUpdates q }

/-! ### C5: pending-update coalescing -/

/-- Each pending list holds at most one update per thread id. -/
def UpdKeysDistinct (l : List ThreadUpdate) : Prop :=
  l.Pairwise (fun u v => u.threadId ≠ v.threadId)

theorem upsertUpdate_nil (u : ThreadUpdate) : upsertUpdate [] u = [u] := rfl

theorem upsertUpdate_cons (v : ThreadUpdate) (vs : List ThreadUpdate) (u : ThreadUpdate) :
    upsertUpdate (v :: vs) u =
      if v.threadId = u.threadId then u :: vs else v :: upsertUpdate vs u := by
  rw [upsertUpdate, List.findIdx?_cons]
  by_cases h : v.threadId = u.threadId
  · simp [h]
  · rw [if_neg (by simpa using h), if_neg h, List.findIdx?_succ]
    rw [upsertUpdate]
    cases hfi : vs.findIdx? (fun w => w.threadId = u.threadId) with
    | none => simp
    | some i => simp

theorem mem_upsertUpdate {w u : ThreadUpdate} {l : List ThreadUpdate}
    (h : w ∈ upsertUpdate l u) : w ∈ l ∨ w = u := by
  induction l with
  | nil =>
    rw [upsertUpdate_nil] at h
    simp at h
    exact Or.inr h
  | cons v vs ih =>
    rw [upsertUpdate_cons] at h
    split at h
    · rcases List.mem_cons.mp h with h | h
      · exact Or.inr h
      · exact Or.inl (List.mem_cons_of_mem _ h)
    · rcases List.mem_cons.mp h with h | h
      · exact Or.inl (h ▸ List.mem_cons_self _ _)
      · rcases ih h with h | h
        · exact Or.inl (List.mem_cons_of_mem _ h)
        · exact Or.inr h

theorem updKeysDistinct_upsertUpdate {l : List ThreadUpdate} (u : ThreadUpdate)
    (h : UpdKeysDistinct l) : UpdKeysDistinct (upsertUpdate l u) := by
  induction l with
  | nil =>
    rw [upsertUpdate_nil]
    exact List.pairwise_singleton _ _
  | cons v vs ih =>
    obtain ⟨hv, hvs⟩ := List.pairwise_cons.mp h
    rw [upsertUpdate_cons]
    by_cases hk : v.threadId = u.threadId
    · rw [if_pos hk]
      exact List.pairwise_cons.mpr ⟨fun w hw => hk ▸ hv w hw, hvs⟩
    · rw [if_neg hk]
      refine List.pairwise_cons.mpr ⟨fun w hw => ?_, ih hvs⟩
      rcases mem_upsertUpdate hw with hw | hw
      · exact hv w hw
      · exact hw ▸ hk

theorem upsertUpdate_filter {l : List ThreadUpdate} (u : ThreadUpdate)
    (h : UpdKeysDistinct l) :
    (upsertUpdate l u).filter (fun v => v.threadId = u.threadId) = [u] := by
  induction l with
  | nil =>
    rw [upsertUpdate_nil]
    simp
  | cons v vs ih =>
    obtain ⟨hv, hvs⟩ := List.pairwise_cons.mp h
    rw [upsertUpdate_cons]
    by_cases hk : v.threadId = u.threadId
    · rw [if_pos hk, List.filter_cons]
      simp only [decide_True, decide_eq_true_eq, if_pos]
      have hnil : vs.filter (fun v => v.threadId = u.threadId) = [] := by
        rw [List.filter_eq_nil_iff]
        intro w hw
        simp only [decide_eq_true_eq]
        exact fun he => hv w hw (hk.trans he.symm)
      rw [hnil]
    · rw [if_neg hk, List.filter_cons]
      simp only [decide_eq_true_eq, hk, if_false, reduceIte]
      exact ih hvs

theorem queueStep_other (thread : Thread) (from_ : String) (now : Nat)
    (acc : String → List ThreadUpdate) (p q : String) (h : q ≠ p) :
    queueStep thread from_ now acc p q = acc q := by
  rw [queueStep]
  split
  · rfl
  · dsimp only
    rw [if_neg h]

theorem foldQueue_not_mem (thread : Thread) (from_ : String) (now : Nat)
    (ps : List String) (pu : String → List ThreadUpdate) (q : String) (hq : q ∉ ps) :
    ps.foldl (queueStep thread from_ now) pu q = pu q := by
  induction ps generalizing pu with
  | nil => rfl
  | cons a ps ih =>
    rw [List.foldl_cons]
    have hqa : q ≠ a := fun he => hq (he ▸ List.mem_cons_self a ps)
    rw [ih _ (fun hm => hq (List.mem_cons_of_mem _ hm)), queueStep_other _ _ _ _ _ _ hqa]

theorem foldQueue_mem (thread : Thread) (from_ : String) (now : Nat)
    (ps : List String) (pu : String → List ThreadUpdate) (q : String)
    (hnd : ps.Nodup) (hq : q ∈ ps) (hqf : q ≠ from_) :
    ps.foldl (queueStep thread from_ now) pu q
      = upsertUpdate (pu q) (mkUpdate thread from_ q now) := by
  induction ps generalizing pu with
  | nil => cases hq
  | cons a ps ih =>
    rw [List.foldl_cons]
    rcases List.mem_cons.mp hq with he | hmem
    · subst he
      have hnotin : q ∉ ps := (List.nodup_cons.mp hnd).1
      rw [foldQueue_not_mem _ _ _ _ _ _ hnotin, queueStep, if_neg hqf]
      rw [if_pos rfl]
    · have hqa : q ≠ a := fun he => (List.nodup_cons.mp hnd).1 (he ▸ hmem)
      rw [ih _ (List.nodup_cons.mp hnd).2 hmem, queueStep_other _ _ _ _ _ _ hqa]

theorem notifyThreadUpdate_pending (st : InboxState) (thread : Thread) (from_ : String)
    (now : Nat) (q : String) (hnd : thread.participants.Nodup)
    (hq : q ∈ thread.participants) (hqf : q ≠ from_) :
    (notifyThreadUpdate st thread from_ now).pendingUpdates q
      = upsertUpdate (st.pendingUpdates q) (mkUpdate thread from_ q now) :=
  foldQueue_mem thread from_ now thread.participants st.pendingUpdates q hnd hq hqf

/-- C5.  Coalescing: queueing two updates for the same `(thread, recipient)`
pair before the first is consumed leaves exactly one pending `ThreadUpdate`
for that pair — the surviving update carries the later sender `from2` and
timestamp `t2` — and a pending list that had at most one update per thread
id still has at most one update per thread id afterwards. -/
theorem thread_update_coalescing (st : InboxState) (thread : Thread)
    (from1 from2 recipient : String) (t1 t2 : Nat)
    (hnd : thread.participants.Nodup)
    (hmem : recipient ∈ thread.participants)
    (hr1 : recipient ≠ from1) (hr2 : recipient ≠ from2)
    (hkeys : UpdKeysDistinct (st.pendingUpdates recipient)) :
    (((notifyThreadUpdate (notifyThreadUpdate st thread from1 t1) thread from2 t2
        ).pendingUpdates recipient).filter (fun u => u.threadId = thread.id)
      = [mkUpdate thread from2 recipient t2]) ∧
    UpdKeysDistinct ((notifyThreadUpdate (notifyThreadUpdate st thread from1 t1) thread
        from2 t2).pendingUpdates recipient) := by
  have e1 := notifyThreadUpdate_pending st thread from1 t1 recipient hnd hmem hr1
  have e2 := notifyThreadUpdate_pending (notifyThreadUpdate st thread from1 t1) thread
    from2 t2 recipient hnd hmem hr2
  rw [e2, e1]
  have hk1 : UpdKeysDistinct (upsertUpdate (st.pendingUpdates recipient)
      (mkUpdate thread from1 recipient t1)) := updKeysDistinct_upsertUpdate _ hkeys
  exact ⟨upsertUpdate_filter (mkUpdate thread from2 recipient t2) hk1,
    updKeysDistinct_upsertUpdate _ hk1⟩

/-- Witness for C5 at a concrete input: two `notifyThreadUpdate` calls for
the same thread leave recipient `"s2"` with the single coalesced update
from the second call. -/
theorem thread_update_coalescing_witness :
    ((notifyThreadUpdate
        (notifyThreadUpdate
          { inboxDir := ".inbox",
            threads := [{ id := "t1", filePath := "a.md", participants := ["s1", "s2"],
                          subject := none, createdAt := 5, updatedAt := 5, lastAuthor := "s1" }],
            pendingUpdates := fun _ => [], sessionThreads := fun _ => [] }
          { id := "t1", filePath := "a.md", participants := ["s1", "s2"], subject := none,
            createdAt := 5, updatedAt := 5, lastAuthor := "s1" } "s1" 6)
        { id := "t1", filePath := "a.md", participants := ["s1", "s2"], subject := none,
          createdAt := 5, updatedAt := 5, lastAuthor := "s1" } "s1" 7
      ).pendingUpdates "s2").filter (fun u => u.threadId = "t1")
    = [{ threadId := "t1", filePath := "a.md", from_ := "s1", to_ := "s2", subject := none,
         timestamp := 7, read := false }] :=
  (thread_update_coalescing
    { inboxDir := ".inbox",
      threads := [{ id := "t1", filePath := "a.md", participants := ["s1", "s2"],
                    subject := none, createdAt := 5, updatedAt := 5, lastAuthor := "s1" }],
      pendingUpdates := fun _ => [], sessionThreads := fun _ => [] }
    { id := "t1", filePath := "a.md", participants := ["s1", "s2"], subject := none,
      createdAt := 5, updatedAt := 5, lastAuthor := "s1" }
    "s1" "s1" "s2" 6 7 (by decide) (by decide) (by decide) (by decide)
    (List.Pairwise.nil)).1

/-! ### C6 / C7: thread matching precedence -/

theorem find?_threadsGet {l : List Thread} {id : String} {t : Thread}
    (h : threadsGet l id = some t) : t.id = id := by
  have := List.find?_some h
  simpa using this

/-- `threadsSet` stores the thread under its id, replacing any previous
entry with that id. -/
theorem threadsGet_threadsSet (l : List Thread) (t : Thread) :
    threadsGet (threadsSet l t) t.id = some t := by
  induction l with
  | nil => simp [threadsSet, threadsGet, List.find?]
  | cons u us ih =>
    rw [threadsSet]
    by_cases h : u.id = t.id
    · rw [if_pos h, threadsGet, List.find?_cons_of_pos _ (by simp)]
    · rw [if_neg h, threadsGet, List.find?_cons_of_neg _ (by simpa using h)]
      exact ih

/-- C6.  `createOrUpdateThread` given an `existingThreadId` that is present
in the thread map and an `existingFilePath` belonging to a different
tracked thread resolves to the thread matched by the id: the returned
thread carries `existingThreadId` — not the id of the thread matched by
the file path. -/
theorem createOrUpdateThread_prefers_threadId (st : InboxState)
    (from_ to_ body : String) (subject : Option String) (fp tid : String)
    (now : Nat) (freshId : String) (t t2 : Thread)
    (htid : tid ≠ "")
    (hfound : threadsGet st.threads tid = some t)
    (ht2 : t2 ∈ st.threads) (hfp : t2.filePath = fp) (hne : t2.id ≠ tid) :
    (createOrUpdateThread st from_ to_ body subject (some fp) (some tid) now freshId).1.id
        = tid ∧
    (createOrUpdateThread st from_ to_ body subject (some fp) (some tid) now freshId).1.id
        ≠ t2.id := by
  have hid : t.id = tid := find?_threadsGet hfound
  have hmain :
      (createOrUpdateThread st from_ to_ body subject (some fp) (some tid) now freshId).1.id
        = tid := by
    rw [createOrUpdateThread]
    dsimp only
    rw [if_pos ⟨by simp [jsTruthyStr, htid], by simp [hfound]⟩]
    simp only [Option.getD_some, hfound, Option.map_some]
    exact hid
  exact ⟨hmain, fun he => hne (he ▸ hmain.symm ▸ rfl)⟩

/-- A sample tracked thread used by concrete witnesses. -/
def sampleThread1 : Thread := ⟨"t1", "a.md", ["s1", "s2"], none, 5, 5, "s1"⟩

/-- A second sample thread at another location. -/
def sampleThread2 : Thread := ⟨"t2", "b.md", ["s1", "s3"], none, 6, 6, "s1"⟩

/-- A sample tracker state with `sampleThread1` tracked. -/
def sampleInbox1 : InboxState := ⟨".inbox", [sampleThread1], fun _ => [], fun _ => []⟩

/-- A sample tracker state with both sample threads tracked. -/
def sampleInbox2 : InboxState := ⟨".inbox", [sampleThread1, sampleThread2], fun _ => [], fun _ => []⟩

/-- Witness for C6 at a concrete input: with thread `"t1"` at `"a.md"` and
thread `"t2"` at `"b.md"` both tracked, a call carrying
`existingThreadId = "t1"` and `existingFilePath = "b.md"` resolves to
`"t1"`. -/
theorem createOrUpdateThread_prefers_threadId_witness :
    (createOrUpdateThread sampleInbox2 "s1" "s2" "hello" none (some "b.md") (some "t1")
        9 "fresh").1.id = "t1" :=
  (createOrUpdateThread_prefers_threadId sampleInbox2 "s1" "s2" "hello" none "b.md" "t1"
    9 "fresh" sampleThread1 sampleThread2
    (by decide) (by decide) (by decide) (by decide) (by decide)).1

/-- Counterexample for C7.  The tracked state has thread `"t1"` at
`"a.md"`; `trackExternalThread` is called with `threadId = "t1"` (already
tracked) and location `"b.md"` (not tracked).  The claim says the call
should resolve to and update the existing `"t1"` thread — but the code only
matches by file path: it builds a brand-new thread (`createdAt = now = 9`,
location `"b.md"`) and overwrites the map entry for `"t1"` with it. -/
theorem trackExternalThread_threadId_cex :
    (threadsGet sampleInbox1.threads "t1").isSome = true ∧
    sampleInbox1.threads.find? (fun t => t.filePath = "b.md") = none ∧
    (trackExternalThread sampleInbox1 "b.md" "s1" "s2" (some "t1") none none
        9 "fresh").1.createdAt = 9 ∧
    (trackExternalThread sampleInbox1 "b.md" "s1" "s2" (some "t1") none none
        9 "fresh").1.filePath = "b.md" ∧
    (threadsGet (trackExternalThread sampleInbox1 "b.md" "s1" "s2" (some "t1") none none
        9 "fresh").2.threads "t1").map Thread.filePath = some "b.md" :=
  ⟨rfl, rfl, rfl, rfl, rfl⟩

/-- C7 as amended.  `trackExternalThread` matches an existing thread by
location (`filePath`) only, never by thread id: if some tracked thread has
the given location, that thread is updated in place; if none does — even
when the given `threadId` is already tracked — a brand-new thread is
created carrying the given id and location, and it is stored by replacing
any previous map entry under that id. -/
theorem trackExternalThread_matches_by_location (st : InboxState) (fp f t : String)
    (tid subj : Option String) (ps : Option (List String)) (now : Nat) (freshId : String) :
    (∀ t0, st.threads.find? (fun th => th.filePath = fp) = some t0 →
      (trackExternalThread st fp f t tid subj ps now freshId).1
        = { t0 with updatedAt := now, lastAuthor := f,
                    participants := pushMissing t0.participants
                      (ps.getD ([f, t].filter (fun s => s ≠ ""))) }) ∧
    (st.threads.find? (fun th => th.filePath = fp) = none →
      (trackExternalThread st fp f t tid subj ps now freshId).1
        = { id := (if jsTruthyStr tid then tid.getD "" else freshId), filePath := fp,
            participants := ps.getD ([f, t].filter (fun s => s ≠ "")), subject := subj,
            createdAt := now, updatedAt := now, lastAuthor := f } ∧
      threadsGet (trackExternalThread st fp f t tid subj ps now freshId).2.threads
          (if jsTruthyStr tid then tid.getD "" else freshId)
        = some (trackExternalThread st fp f t tid subj ps now freshId).1) := by
  constructor
  · intro t0 hfind
    rw [trackExternalThread.eq_def]
    dsimp only
    rw [hfind]
    cases ps <;> rfl
  · intro hfind
    constructor
    · rw [trackExternalThread.eq_def]
      dsimp only
      rw [hfind]
      cases ps <;> rfl
    · rw [trackExternalThread.eq_def]
      dsimp only
      rw [hfind]
      dsimp only
      cases ps <;> exact threadsGet_threadsSet st.threads _

/-- Witness for the amended C7 theorem at the counterexample input. -/
theorem trackExternalThread_matches_by_location_witness :
    (trackExternalThread sampleInbox1 "b.md" "s1" "s2" (some "t1") none none 9 "fresh").1
      = { id := "t1", filePath := "b.md", participants := ["s1", "s2"], subject := none,
          createdAt := 9, updatedAt := 9, lastAuthor := "s1" } :=
  (((trackExternalThread_matches_by_location sampleInbox1 "b.md" "s1" "s2" (some "t1")
    none none 9 "fresh").2 (by decide)).1).trans (by decide)

/-! ### C8: markThreadRead removes exactly the matching updates -/

/-- C8.  For every session and path, `markThreadRead(sessionId, filePath)`
removes from the session pending list exactly the updates whose `filePath`
matches the given path — by exact equality or because the given path ends
with the stored path (absolute vs. relative variants) — keeps every
non-matching update (the survivors form a sublist, so their order is
untouched), and leaves every other session pending list unchanged. -/
theorem markThreadRead_removes_matching (st : InboxState) (sid fp : String) :
    (∀ u, u ∈ (markThreadRead st sid fp).pendingUpdates sid ↔
      (u ∈ st.pendingUpdates sid ∧ ¬(u.filePath = fp ∨ jsEndsWith fp u.filePath = true))) ∧
    ((markThreadRead st sid fp).pendingUpdates sid).Sublist (st.pendingUpdates sid) ∧
    (∀ q, q ≠ sid → (markThreadRead st sid fp).pendingUpdates q = st.pendingUpdates q) := by
  refine ⟨fun u => ?_, ?_, fun q hq => ?_⟩
  · rw [markThreadRead]
    dsimp only
    rw [if_pos rfl]
    rw [List.mem_filter]
    simp [not_or]
  · rw [markThreadRead]
    dsimp only
    rw [if_pos rfl]
    exact List.filter_sublist _
  · rw [markThreadRead]
    dsimp only
    rw [if_neg hq]

/-- A sample pending-update map for the C8 witness: three updates for
session `"s1"`, stored under `"a.md"`, `"/x/a.md"` and `"b.md"`. -/
def samplePending : InboxState :=
  ⟨".inbox", [],
    fun q =>
      if q = "s1" then
        [⟨"t1", "a.md", "s1", "s1", none, 1, false⟩,
         ⟨"t2", "/x/a.md", "s1", "s1", none, 2, false⟩,
         ⟨"t3", "b.md", "s1", "s1", none, 3, false⟩]
      else [],
    fun _ => []⟩

/-- Witness for C8 at a concrete input: marking `"/x/a.md"` read keeps the
`"b.md"` update (no match), while session `"s2"` is untouched. -/
theorem markThreadRead_removes_matching_witness :
    (⟨"t3", "b.md", "s1", "s1", none, 3, false⟩ : ThreadUpdate) ∈
      (markThreadRead samplePending "s1" "/x/a.md").pendingUpdates "s1" ∧
    (markThreadRead samplePending "s1" "/x/a.md").pendingUpdates "s2" = [] := by
  constructor
  · exact ((markThreadRead_removes_matching samplePending "s1" "/x/a.md").1 _).mpr
      ⟨by decide, by decide⟩
  · exact ((markThreadRead_removes_matching samplePending "s1" "/x/a.md").2.2 "s2"
      (by decide)).trans (by decide)

/-! ### The frontmatter parser/generator (src/lib/frontmatter.ts)

`parseFrontmatter` is driven by the regex
`/^---\r?\n([\s\S]*?)\r?\n---\r?\n?([\s\S]*)$/`: an opening `---` line, a
lazily-matched block (shortest prefix such that the rest matches), the
closing separator `\r?\n---` with optional trailing `\r?\n?` (both
greedy), and the remainder as body.  We implement exactly that matcher on
character lists (`stripLead` for literal prefixes, `scanSep` for the lazy
scan).  The YAML-ish `key: value` lines are then parsed as in the source;
since a JS object field can end up holding a string, a boolean or an
array, parsed values are modelled by `FMVal`. -/

/-- A parsed frontmatter value: JS strings, booleans or string arrays. -/
inductive FMVal
  | str (s : String)
  | bool (b : Bool)
  | arr (l : List String)
deriving DecidableEq, Repr

/-- The `MailFrontmatter` interface (input of `generateFrontmatter`). -/
structure MailFrontmatter where
  mail : Bool
  to_ : String
  from_ : Option String
  subject : Option String
  thread : Option String
  participants : Option (List String)
deriving DecidableEq, Repr

/-- The runtime shape `parseFrontmatter` produces: fields start as
`{ mail: false, to: , others undefined }` and are overwritten with
whatever value the corresponding line parses to. -/
structure ParsedFM where
  mail : FMVal
  to_ : FMVal
  from_ : Option FMVal
  subject : Option FMVal
  thread : Option FMVal
  participants : Option FMVal
deriving DecidableEq, Repr

structure ParsedContent where
  frontmatter : ParsedFM
  body : String
  raw : String
deriving DecidableEq, Repr

/-- Model of JS `Array.prototype.join(sep)`. -/
def joinStrs (sep : String) : List String → String
  | [] => ""
  | [a] => a
  | a :: as => a ++ sep ++ joinStrs sep as

/-- `joinStrs` on the character level. -/
def joinCharList (sep : List Char) : List (List Char) → List Char
  | [] => []
  | [l] => l
  | l :: ls => l ++ sep ++ joinCharList sep ls

/-- The `key: value` line an optional field contributes when truthy
(`if (fm.from) lines.push(...)` etc.). -/
def optField (key : String) (o : Option String) : List String :=
  match o with
  | some v => if v ≠ "" then [key ++ v] else []
  | none => []

/-- The participants line, pushed when the list is present and non-empty. -/
def psField (o : Option (List String)) : List String :=
  match o with
  | some ps =>
    if ps.length > 0 then ["participants: [" ++ joinStrs ", " ps ++ "]"] else []
  | none => []

/-- The inner lines `generateFrontmatter` pushes between the two `---`
markers: a fixed `mail: true`, then one `key: value` line per truthy
optional field, then a bracketed participants list when non-empty. -/
def fmLines (fm : MailFrontmatter) : List String :=
  ["mail: true"]
    ++ (if fm.to_ ≠ "" then ["to: " ++ fm.to_] else [])
    ++ optField "from: " fm.from_
    ++ optField "subject: " fm.subject
    ++ optField "thread: " fm.thread
    ++ psField fm.participants

/-- `generateFrontmatter` (src/lib/frontmatter.ts:97-109): `lines.push` of
`---`, the inner lines, and the closing `---`, joined by newlines. -/
def generateFrontmatter (fm : MailFrontmatter) : String :=
  joinStrs "\n" (["---"] ++ fmLines fm ++ ["---"])

/-- Strip a literal character sequence from the front, if present. -/
def stripLead : List Char → List Char → Option (List Char)
  | [], cs => some cs
  | _ :: _, [] => none
  | p :: ps, c :: cs => if c = p then stripLead ps cs else none

/-- Consume the trailing `\r?\n?` of the closing separator (both optionals
greedy; the regex never needs to backtrack here because `([\s\S]*)$`
matches anything). -/
def consumeRN : List Char → List Char
  | '\r' :: rest =>
    match rest with
    | '\n' :: r => r
    | _ => rest
  | '\n' :: r => r
  | cs => cs

/-- Try to match the closing separator `\r?\n---\r?\n?` at the current
position (greedy `\r?` first). -/
def trySep (cs : List Char) : Option (List Char) :=
  match stripLead ['\r', '\n', '-', '-', '-'] cs with
  | some r => some (consumeRN r)
  | none =>
    match stripLead ['\n', '-', '-', '-'] cs with
    | some r => some (consumeRN r)
    | none => none

/-- The lazy scan of `([\s\S]*?)`: find the earliest position where the
closing separator matches, returning the block before it and the body
after it. -/
def scanSep : List Char → Option (List Char × List Char)
  | [] => none
  | c :: cs =>
    match trySep (c :: cs) with
    | some rest => some ([], rest)
    | none => (scanSep cs).map (fun p => (c :: p.1, p.2))

/-- The whole regex: `^---\r?\n` (greedy `\r?`), then the lazy block scan. -/
def matchFrontmatter (cs : List Char) : Option (List Char × List Char) :=
  match stripLead ['-', '-', '-', '\r', '\n'] cs with
  | some rest => scanSep rest
  | none =>
    match stripLead ['-', '-', '-', '\n'] cs with
    | some rest => scanSep rest
    | none => none

/-- Split a line at its first colon (`line.indexOf(':')`; `none` models the
`-1` continue). -/
def splitFirstColon : List Char → Option (List Char × List Char)
  | [] => none
  | c :: cs =>
    if c = ':' then some ([], cs)
    else (splitFirstColon cs).map (fun p => (c :: p.1, p.2))

/-- `.replace(/['"]/g, '')`. -/
def removeQuotes (l : List Char) : List Char :=
  l.filter (fun c => c ≠ '\'' && c ≠ '"')

/-- Classify a trimmed value string exactly as the parser does: the
literals `true`/`false`, quote-wrapped strings, `[...]` arrays (split on
commas, each entry trimmed and stripped of quotes), else a plain string. -/
def classifyValue (v : List Char) : FMVal :=
  if v = "true".data then .bool true
  else if v = "false".data then .bool false
  else if (v.head? = some '"' ∧ v.getLast? = some '"') ∨
          (v.head? = some '\'' ∧ v.getLast? = some '\'') then
    .str (String.mk ((v.drop 1).dropLast))
  else if v.head? = some '[' ∧ v.getLast? = some ']' then
    .arr ((splitOnChar ',' ((v.drop 1).dropLast)).map
      (fun w => String.mk (removeQuotes (trimChars w))))
  else .str (String.mk v)

/-- Store a parsed value under the recognised keys (unknown keys are
dropped). -/
def assignField (fm : ParsedFM) (key : List Char) (v : FMVal) : ParsedFM :=
  if key = "mail".data then { fm with mail := v }
  else if key = "to".data then { fm with to_ := v }
  else if key = "from".data then { fm with from_ := some v }
  else if key = "subject".data then { fm with subject := some v }
  else if key = "thread".data then { fm with thread := some v }
  else if key = "participants".data then { fm with participants := some v }
  else fm

/-- One `key: value` line of the frontmatter block. -/
def parseLine (fm : ParsedFM) (line : List Char) : ParsedFM :=
  match splitFirstColon line with
  | none => fm
  | some (k, v) => assignField fm (trimChars k) (classifyValue (trimChars v))

/-- The parser's initial accumulator `{ mail: false, to: '' }`. -/
def initialPFM : ParsedFM := ⟨.bool false, .str "", none, none, none, none⟩

/-- `parseFrontmatter` (src/lib/frontmatter.ts:39-83). -/
def parseFrontmatter (content : String) : ParsedContent :=
  match matchFrontmatter content.data with
  | none => ⟨initialPFM, content, content⟩
  | some (block, rest) =>
    ⟨(splitOnChar '\n' block).foldl parseLine initialPFM,
      String.mk (trimChars rest), content⟩

/-- `isValidMail` (src/lib/frontmatter.ts:88-92): `mail === true`,
`typeof to === 'string'`, `to.length > 0`. -/
def isValidMail (p : ParsedContent) : Bool :=
  (p.frontmatter.mail == .bool true) &&
    (match p.frontmatter.to_ with
     | .str s => decide (s.length > 0)
     | _ => false)

/-! ### C9 proof machinery: the regex matcher on generated content -/

theorem trySep_none_of_head {c : Char} (cs : List Char)
    (h1 : c ≠ '\n') (h2 : c ≠ '\r') : trySep (c :: cs) = none := by
  rw [trySep]
  rw [stripLead, if_neg h2, stripLead, if_neg h1]

theorem scanSep_append_clean (l rest : List Char)
    (h : ∀ c ∈ l, c ≠ '\n' ∧ c ≠ '\r') :
    scanSep (l ++ rest) = (scanSep rest).map (fun p => (l ++ p.1, p.2)) := by
  induction l with
  | nil =>
    cases hs : scanSep rest with
    | none => simp [hs]
    | some p => simp [hs]
  | cons c l' ih =>
    have hc := h c (List.mem_cons_self c l')
    rw [List.cons_append, scanSep, trySep_none_of_head _ hc.1 hc.2,
      ih (fun x hx => h x (List.mem_cons_of_mem _ hx))]
    cases hs : scanSep rest with
    | none => simp
    | some p => simp

theorem trySep_newline_nonDash (X : List Char) (h : X.head? ≠ some '-') :
    trySep ('\n' :: X) = none := by
  rw [trySep]
  rw [stripLead, if_neg (by decide : ('\n' : Char) ≠ '\r')]
  cases X with
  | nil => rfl
  | cons c X' =>
    have hc : c ≠ '-' := fun he => h (by rw [he]; rfl)
    rw [stripLead, if_pos rfl, stripLead, if_neg hc]

/-- A good frontmatter line: non-empty, single-line, and not starting with
a dash (so the lazy scan cannot fire inside the block). -/
def GoodLine (l : List Char) : Prop :=
  l ≠ [] ∧ (∀ c ∈ l, c ≠ '\n' ∧ c ≠ '\r') ∧ l.head? ≠ some '-'

theorem joinCharList_cons_ne (sep : List Char) (l : List Char) (ls : List (List Char))
    (h : ls ≠ []) : joinCharList sep (l :: ls) = l ++ sep ++ joinCharList sep ls := by
  cases ls with
  | nil => exact absurd rfl h
  | cons a as => rfl

theorem joinCharList_head? (ls : List (List Char)) (l : List Char) (hl : l ≠ []) :
    (joinCharList ['\n'] (l :: ls)).head? = l.head? := by
  cases ls with
  | nil => rfl
  | cons a as =>
    rw [joinCharList_cons_ne _ _ _ (by simp)]
    cases l with
    | nil => exact absurd rfl hl
    | cons c l' => rfl

theorem scanSep_at_sep (body : List Char) :
    scanSep ('\n' :: '-' :: '-' :: '-' :: '\n' :: body) = some ([], body) := by
  rw [scanSep]
  have ht : trySep ('\n' :: '-' :: '-' :: '-' :: '\n' :: body) = some body := by
    rw [trySep]
    simp [stripLead, consumeRN]
  rw [ht]

theorem scanSep_lines (ls : List (List Char)) (body : List Char)
    (h : ∀ l ∈ ls, GoodLine l) (hne : ls ≠ []) :
    scanSep (joinCharList ['\n'] ls ++ ('\n' :: '-' :: '-' :: '-' :: '\n' :: body))
      = some (joinCharList ['\n'] ls, body) := by
  induction ls with
  | nil => exact absurd rfl hne
  | cons l ls' ih =>
    obtain ⟨hl1, hl2, hl3⟩ := h l (List.mem_cons_self l ls')
    cases ls' with
    | nil =>
      show scanSep (l ++ ('\n' :: '-' :: '-' :: '-' :: '\n' :: body)) = some (l, body)
      rw [scanSep_append_clean l _ hl2, scanSep_at_sep]
      simp
    | cons a as =>
      have hne' : (a :: as) ≠ ([] : List (List Char)) := by simp
      obtain ⟨ha1, ha2, ha3⟩ := h a (List.mem_cons_of_mem _ (List.mem_cons_self a as))
      rw [joinCharList_cons_ne _ _ _ hne', List.append_assoc, List.append_assoc,
        scanSep_append_clean l _ hl2, List.singleton_append]
      have hXhead : ((joinCharList ['\n'] (a :: as))
          ++ ('\n' :: '-' :: '-' :: '-' :: '\n' :: body)).head? ≠ some '-' := by
        have hj : (joinCharList ['\n'] (a :: as)).head? = a.head? := joinCharList_head? as a ha1
        cases hja : joinCharList ['\n'] (a :: as) with
        | nil =>
          rw [hja] at hj
          cases a with
          | nil => exact absurd rfl ha1
          | cons x xs => simp at hj
        | cons c cs =>
          rw [hja] at hj
          simp only [List.cons_append, List.head?_cons]
          intro he
          apply ha3
          rw [← hj]
          exact he
      rw [scanSep, trySep_newline_nonDash _ hXhead,
        ih (fun w hw => h w (List.mem_cons_of_mem _ hw)) hne']
      simp [joinCharList_cons_ne _ _ _ hne', List.append_assoc]

/-! ### C9 proof machinery: splitting, trimming and value classification -/

theorem splitOnChar_ne_nil (sep : Char) (l : List Char) : splitOnChar sep l ≠ [] := by
  induction l with
  | nil => simp [splitOnChar]
  | cons c cs ih =>
    rw [splitOnChar]
    split
    · simp
    · cases hs : splitOnChar sep cs with
      | nil => simp
      | cons a as => simp

theorem splitOnChar_no_sep (sep : Char) (l : List Char) (h : sep ∉ l) :
    splitOnChar sep l = [l] := by
  induction l with
  | nil => rfl
  | cons c cs ih =>
    have hc : c ≠ sep := fun he => h (he ▸ List.mem_cons_self c cs)
    rw [splitOnChar, if_neg hc, ih (fun hm => h (List.mem_cons_of_mem _ hm))]

theorem splitOnChar_append (sep : Char) (l rest : List Char) (h : sep ∉ l) :
    splitOnChar sep (l ++ sep :: rest) = l :: splitOnChar sep rest := by
  induction l with
  | nil => simp [splitOnChar]
  | cons c cs ih =>
    have hc : c ≠ sep := fun he => h (he ▸ List.mem_cons_self c cs)
    rw [List.cons_append, splitOnChar, if_neg hc,
      ih (fun hm => h (List.mem_cons_of_mem _ hm))]

theorem splitOnChar_cons_ne (sep c : Char) (cs : List Char) (h : c ≠ sep) :
    splitOnChar sep (c :: cs) =
      match splitOnChar sep cs with
      | [] => [[c]]
      | l :: ls => (c :: l) :: ls := by
  rw [splitOnChar, if_neg h]

theorem split_joinCharList (ls : List (List Char))
    (h : ∀ l ∈ ls, ('\n' : Char) ∉ l) (hne : ls ≠ []) :
    splitOnChar '\n' (joinCharList ['\n'] ls) = ls := by
  induction ls with
  | nil => exact absurd rfl hne
  | cons l ls' ih =>
    cases ls' with
    | nil => exact splitOnChar_no_sep '\n' l (h l (List.mem_cons_self l []))
    | cons a as =>
      rw [joinCharList_cons_ne _ _ _ (by simp), List.append_assoc, List.singleton_append,
        splitOnChar_append '\n' l _ (h l (List.mem_cons_self _ _)),
        ih (fun w hw => h w (List.mem_cons_of_mem _ hw)) (by simp)]

theorem dropLeadWs_cons_of_ws (c : Char) (l : List Char) (h : isWs c = true) :
    dropLeadWs (c :: l) = dropLeadWs l := by
  rw [dropLeadWs, dropLeadWs, List.dropWhile_cons, if_pos h]

theorem dropLeadWs_cons_of_not_ws (c : Char) (l : List Char) (h : isWs c = false) :
    dropLeadWs (c :: l) = c :: l := by
  rw [dropLeadWs, List.dropWhile_cons, if_neg (by simp [h])]

theorem dropTrailWs_concat_of_not_ws (l : List Char) (c : Char) (h : isWs c = false) :
    dropTrailWs (l ++ [c]) = l ++ [c] := by
  rw [dropTrailWs, List.reverse_append, List.reverse_cons, List.reverse_nil,
    List.nil_append, List.singleton_append, List.dropWhile_cons, if_neg (by simp [h]),
    List.reverse_cons, List.reverse_reverse]

/-- The conditions under which a value string survives the round trip: it
is non-empty, already trimmed on both sides, contains no newline, carriage
return, colon, bracket or quote characters, and is not a boolean literal. -/
def simpleToken (s : String) : Prop :=
  s ≠ "" ∧ dropLeadWs s.data = s.data ∧ dropTrailWs s.data = s.data ∧
    (∀ c ∈ s.data, c ≠ '\n' ∧ c ≠ '\r' ∧ c ≠ ':' ∧ c ≠ '[' ∧ c ≠ ']' ∧
      c ≠ '"' ∧ c ≠ '\'') ∧
    s ≠ "true" ∧ s ≠ "false"

instance decSimpleToken (s : String) : Decidable (simpleToken s) := by
  unfold simpleToken
  infer_instance

theorem simpleToken_data_ne_nil {s : String} (h : simpleToken s) : s.data ≠ [] :=
  fun he => h.1 (String.ext (he.trans rfl))

theorem trimChars_of_simple {s : String} (h : simpleToken s) : trimChars s.data = s.data := by
  rw [trimChars, h.2.1, h.2.2.1]

theorem trimChars_space_simple {s : String} (h : simpleToken s) :
    trimChars (' ' :: s.data) = s.data := by
  rw [trimChars, dropLeadWs_cons_of_ws _ _ (by decide), h.2.1, h.2.2.1]

theorem removeQuotes_of_no_quotes (l : List Char)
    (h : ∀ c ∈ l, c ≠ '"' ∧ c ≠ '\'') : removeQuotes l = l := by
  rw [removeQuotes, List.filter_eq_self]
  intro c hc
  simp [(h c hc).1, (h c hc).2]

theorem head?_ne_of_simple {s : String} (h : simpleToken s) {c : Char}
    (hc : ∀ x ∈ s.data, x ≠ c) : s.data.head? ≠ some c := by
  cases hd : s.data with
  | nil => exact absurd hd (simpleToken_data_ne_nil h)
  | cons x xs =>
    simp only [List.head?_cons]
    intro he
    exact hc x (hd ▸ List.mem_cons_self x xs) (Option.some.inj he)

theorem classifyValue_simple {s : String} (h : simpleToken s) :
    classifyValue s.data = .str s := by
  have hchars := h.2.2.2.1
  have htrue : s.data ≠ "true".data := fun he => h.2.2.2.2.1 (String.ext he)
  have hfalse : s.data ≠ "false".data := fun he => h.2.2.2.2.2 (String.ext he)
  have hq : s.data.head? ≠ some '"' :=
    head?_ne_of_simple h (fun x hx => (hchars x hx).2.2.2.2.2.1)
  have hq' : s.data.head? ≠ some '\'' :=
    head?_ne_of_simple h (fun x hx => (hchars x hx).2.2.2.2.2.2)
  have hb : s.data.head? ≠ some '[' :=
    head?_ne_of_simple h (fun x hx => (hchars x hx).2.2.2.1)
  rw [classifyValue, if_neg htrue, if_neg hfalse,
    if_neg (fun hc => hc.elim (fun hc => hq hc.1) (fun hc => hq' hc.1)),
    if_neg (fun hc => hb hc.1)]

theorem joinStrs_cons_cons (sep : String) (a b : String) (t : List String) :
    joinStrs sep (a :: b :: t) = a ++ sep ++ joinStrs sep (b :: t) := rfl

theorem split_join_participants (p : String) (rest : List String)
    (hp : (',' : Char) ∉ p.data) (hrest : ∀ q ∈ rest, (',' : Char) ∉ q.data) :
    splitOnChar ',' (joinStrs ", " (p :: rest)).data
      = p.data :: rest.map (fun q => ' ' :: q.data) := by
  induction rest generalizing p with
  | nil => exact splitOnChar_no_sep ',' p.data hp
  | cons q rest' ih =>
    rw [joinStrs_cons_cons, String.data_append, String.data_append]
    have hsep : ", ".data = [',', ' '] := rfl
    rw [hsep, List.append_assoc]
    rw [show ([',', ' '] : List Char) ++ (joinStrs ", " (q :: rest')).data
        = ',' :: (' ' :: (joinStrs ", " (q :: rest')).data) from rfl]
    rw [splitOnChar_append ',' p.data _ hp]
    have hq := hrest q (List.mem_cons_self q rest')
    rw [splitOnChar_cons_ne ',' ' ' _ (by decide),
      ih q hq (fun w hw => hrest w (List.mem_cons_of_mem _ hw))]
    rfl

theorem map_clean_tokens (p : String) (rest : List String)
    (hp : simpleToken p)
    (hrest : ∀ q ∈ rest, simpleToken q) :
    (p.data :: rest.map (fun q => ' ' :: q.data)).map
        (fun w => String.mk (removeQuotes (trimChars w)))
      = p :: rest := by
  rw [List.map_cons]
  have hhead : String.mk (removeQuotes (trimChars p.data)) = p := by
    rw [trimChars_of_simple hp,
      removeQuotes_of_no_quotes _ (fun c hc =>
        ⟨(hp.2.2.2.1 c hc).2.2.2.2.2.1, (hp.2.2.2.1 c hc).2.2.2.2.2.2⟩)]
  rw [hhead, List.map_map]
  congr 1
  induction rest with
  | nil => rfl
  | cons q rest' ih =>
    rw [List.map_cons, ih (fun w hw => hrest w (List.mem_cons_of_mem _ hw))]
    have hq := hrest q (List.mem_cons_self q rest')
    have : String.mk (removeQuotes (trimChars (' ' :: q.data))) = q := by
      rw [trimChars_space_simple hq,
        removeQuotes_of_no_quotes _ (fun c hc =>
          ⟨(hq.2.2.2.1 c hc).2.2.2.2.2.1, (hq.2.2.2.1 c hc).2.2.2.2.2.2⟩)]
    rw [show ((fun w => String.mk (removeQuotes (trimChars w))) ∘ fun q => ' ' :: q.data)
        q = String.mk (removeQuotes (trimChars (' ' :: q.data))) from rfl, this]

theorem classifyValue_participants (ps : List String)
    (h : ∀ p ∈ ps, simpleToken p ∧ (',' : Char) ∉ p.data) (hne : ps ≠ []) :
    classifyValue ('[' :: ((joinStrs ", " ps).data ++ [']'])) = .arr ps := by
  cases ps with
  | nil => exact absurd rfl hne
  | cons p rest =>
    have hv : ('[' :: ((joinStrs ", " (p :: rest)).data ++ [']'])).getLast? = some ']' := by
      rw [show ('[' :: ((joinStrs ", " (p :: rest)).data ++ [']']))
          = ('[' :: (joinStrs ", " (p :: rest)).data) ++ [']'] from rfl]
      exact List.getLast?_concat _
    rw [classifyValue,
      if_neg (by simp : ¬('[' :: ((joinStrs ", " (p :: rest)).data ++ [']']) = "true".data)),
      if_neg (by simp : ¬('[' :: ((joinStrs ", " (p :: rest)).data ++ [']']) = "false".data)),
      if_neg (fun hc => hc.elim (fun hc => by simp at hc) (fun hc => by simp at hc)),
      if_pos ⟨rfl, hv⟩]
    rw [show ('[' :: ((joinStrs ", " (p :: rest)).data ++ [']'])).drop 1
        = (joinStrs ", " (p :: rest)).data ++ [']'] from rfl,
      List.dropLast_concat,
      split_join_participants p rest (h p (List.mem_cons_self p rest)).2
        (fun q hq => (h q (List.mem_cons_of_mem _ hq)).2),
      map_clean_tokens p rest (h p (List.mem_cons_self p rest)).1
        (fun q hq => (h q (List.mem_cons_of_mem _ hq)).1)]

/-! ### C9 proof machinery: the individual frontmatter lines -/

theorem parseLine_mail (A : ParsedFM) :
    parseLine A ("mail: true").data = { A with mail := .bool true } := rfl

theorem parseLine_to (A : ParsedFM) (t : String) (h : simpleToken t) :
    parseLine A ("to: " ++ t).data = { A with to_ := .str t } := by
  have hd : ("to: " ++ t).data = 't' :: 'o' :: ':' :: ' ' :: t.data := by
    rw [String.data_append]; rfl
  rw [hd, parseLine]
  have hsplit : splitFirstColon ('t' :: 'o' :: ':' :: ' ' :: t.data)
      = some (['t', 'o'], ' ' :: t.data) := by
    simp [splitFirstColon]
  rw [hsplit]
  show assignField A (trimChars ['t', 'o']) (classifyValue (trimChars (' ' :: t.data))) = _
  rw [trimChars_space_simple h, classifyValue_simple h]
  rfl

theorem parseLine_from (A : ParsedFM) (t : String) (h : simpleToken t) :
    parseLine A ("from: " ++ t).data = { A with from_ := some (.str t) } := by
  have hd : ("from: " ++ t).data = 'f' :: 'r' :: 'o' :: 'm' :: ':' :: ' ' :: t.data := by
    rw [String.data_append]; rfl
  rw [hd, parseLine]
  have hsplit : splitFirstColon ('f' :: 'r' :: 'o' :: 'm' :: ':' :: ' ' :: t.data)
      = some (['f', 'r', 'o', 'm'], ' ' :: t.data) := by
    simp [splitFirstColon]
  rw [hsplit]
  show assignField A (trimChars ['f', 'r', 'o', 'm'])
    (classifyValue (trimChars (' ' :: t.data))) = _
  rw [trimChars_space_simple h, classifyValue_simple h]
  rfl

theorem parseLine_subject (A : ParsedFM) (t : String) (h : simpleToken t) :
    parseLine A ("subject: " ++ t).data = { A with subject := some (.str t) } := by
  have hd : ("subject: " ++ t).data
      = 's' :: 'u' :: 'b' :: 'j' :: 'e' :: 'c' :: 't' :: ':' :: ' ' :: t.data := by
    rw [String.data_append]; rfl
  rw [hd, parseLine]
  have hsplit : splitFirstColon
      ('s' :: 'u' :: 'b' :: 'j' :: 'e' :: 'c' :: 't' :: ':' :: ' ' :: t.data)
      = some (['s', 'u', 'b', 'j', 'e', 'c', 't'], ' ' :: t.data) := by
    simp [splitFirstColon]
  rw [hsplit]
  show assignField A (trimChars ['s', 'u', 'b', 'j', 'e', 'c', 't'])
    (classifyValue (trimChars (' ' :: t.data))) = _
  rw [trimChars_space_simple h, classifyValue_simple h]
  rfl

theorem parseLine_thread (A : ParsedFM) (t : String) (h : simpleToken t) :
    parseLine A ("thread: " ++ t).data = { A with thread := some (.str t) } := by
  have hd : ("thread: " ++ t).data
      = 't' :: 'h' :: 'r' :: 'e' :: 'a' :: 'd' :: ':' :: ' ' :: t.data := by
    rw [String.data_append]; rfl
  rw [hd, parseLine]
  have hsplit : splitFirstColon
      ('t' :: 'h' :: 'r' :: 'e' :: 'a' :: 'd' :: ':' :: ' ' :: t.data)
      = some (['t', 'h', 'r', 'e', 'a', 'd'], ' ' :: t.data) := by
    simp [splitFirstColon]
  rw [hsplit]
  show assignField A (trimChars ['t', 'h', 'r', 'e', 'a', 'd'])
    (classifyValue (trimChars (' ' :: t.data))) = _
  rw [trimChars_space_simple h, classifyValue_simple h]
  rfl

theorem trimChars_bracket (l : List Char) :
    trimChars (' ' :: '[' :: (l ++ [']'])) = '[' :: (l ++ [']']) := by
  rw [trimChars, dropLeadWs_cons_of_ws _ _ (by decide),
    dropLeadWs_cons_of_not_ws _ _ (by decide)]
  rw [show ('[' :: (l ++ [']'])) = ('[' :: l) ++ [']'] from rfl,
    dropTrailWs_concat_of_not_ws _ _ (by decide)]

theorem parseLine_participants (A : ParsedFM) (ps : List String)
    (h : ∀ p ∈ ps, simpleToken p ∧ (',' : Char) ∉ p.data) (hne : ps ≠ []) :
    parseLine A ("participants: [" ++ joinStrs ", " ps ++ "]").data
      = { A with participants := some (.arr ps) } := by
  have hd : ("participants: [" ++ joinStrs ", " ps ++ "]").data
      = 'p' :: 'a' :: 'r' :: 't' :: 'i' :: 'c' :: 'i' :: 'p' :: 'a' :: 'n' :: 't' :: 's' ::
        ':' :: ' ' :: '[' :: ((joinStrs ", " ps).data ++ [']']) := by
    rw [String.data_append, String.data_append]
    rfl
  rw [hd, parseLine]
  have hsplit : splitFirstColon
      ('p' :: 'a' :: 'r' :: 't' :: 'i' :: 'c' :: 'i' :: 'p' :: 'a' :: 'n' :: 't' :: 's' ::
        ':' :: ' ' :: '[' :: ((joinStrs ", " ps).data ++ [']']))
      = some (['p', 'a', 'r', 't', 'i', 'c', 'i', 'p', 'a', 'n', 't', 's'],
          ' ' :: '[' :: ((joinStrs ", " ps).data ++ [']'])) := by
    simp [splitFirstColon]
  rw [hsplit]
  show assignField A (trimChars ['p', 'a', 'r', 't', 'i', 'c', 'i', 'p', 'a', 'n', 't', 's'])
    (classifyValue (trimChars (' ' :: '[' :: ((joinStrs ", " ps).data ++ [']'])))) = _
  rw [trimChars_bracket, classifyValue_participants ps h hne]
  rfl

/-! ### C9 proof machinery: the shape of the generated content -/

theorem joinStrs_data (sep : String) (ls : List String) :
    (joinStrs sep ls).data = joinCharList sep.data (ls.map String.data) := by
  induction ls with
  | nil => rfl
  | cons a t ih =>
    cases t with
    | nil => rfl
    | cons b t' =>
      rw [joinStrs_cons_cons, String.data_append, String.data_append, ih]
      rfl

theorem joinCharList_append_last (sep : List Char) (ls : List (List Char)) (a : List Char)
    (hne : ls ≠ []) :
    joinCharList sep (ls ++ [a]) = joinCharList sep ls ++ sep ++ a := by
  induction ls with
  | nil => exact absurd rfl hne
  | cons l ls' ih =>
    cases ls' with
    | nil => rfl
    | cons b t =>
      rw [List.cons_append, joinCharList_cons_ne _ _ _ (by simp),
        joinCharList_cons_ne _ _ _ (by simp), ih (by simp)]
      simp [List.append_assoc]

theorem generateFrontmatter_data (fm : MailFrontmatter) (body : String) :
    (generateFrontmatter fm ++ "\n" ++ body).data
      = '-' :: '-' :: '-' :: '\n' ::
          (joinCharList ['\n'] ((fmLines fm).map String.data)
            ++ ('\n' :: '-' :: '-' :: '-' :: '\n' :: body.data)) := by
  have hne : (fmLines fm).map String.data ≠ [] := by
    rw [fmLines]
    simp
  rw [String.data_append, String.data_append, generateFrontmatter, joinStrs_data]
  rw [show (["---"] ++ fmLines fm ++ ["---"]).map String.data
      = ("---".data :: ((fmLines fm).map String.data ++ ["---".data])) by simp]
  rw [joinCharList_cons_ne _ _ _ (by simp [hne]), joinCharList_append_last _ _ _ hne]
  simp [List.append_assoc]

theorem goodLine_keyval (k : List Char) (t : String) (hk : k ≠ [])
    (hkh : k.head? ≠ some '-') (hkc : ∀ c ∈ k, c ≠ '\n' ∧ c ≠ '\r')
    (h : simpleToken t) : GoodLine (k ++ t.data) := by
  refine ⟨by simp [hk], fun c hc => ?_, ?_⟩
  · rcases List.mem_append.mp hc with hc | hc
    · exact hkc c hc
    · exact ⟨(h.2.2.2.1 c hc).1, (h.2.2.2.1 c hc).2.1⟩
  · cases k with
    | nil => exact absurd rfl hk
    | cons x xs =>
      rw [List.cons_append, List.head?_cons]
      exact hkh

theorem joinStrs_comma_chars (ps : List String) (h : ∀ p ∈ ps, simpleToken p) :
    ∀ c ∈ (joinStrs ", " ps).data, c ≠ '\n' ∧ c ≠ '\r' := by
  induction ps with
  | nil => intro c hc; cases hc
  | cons p rest ih =>
    cases rest with
    | nil =>
      intro c hc
      have hp := h p (List.mem_cons_self p [])
      exact ⟨(hp.2.2.2.1 c hc).1, (hp.2.2.2.1 c hc).2.1⟩
    | cons q t =>
      intro c hc
      rw [joinStrs_cons_cons, String.data_append, String.data_append] at hc
      rcases List.mem_append.mp hc with hc2 | hc2
      · rcases List.mem_append.mp hc2 with hc3 | hc3
        · have hp := h p (List.mem_cons_self p (q :: t))
          exact ⟨(hp.2.2.2.1 c hc3).1, (hp.2.2.2.1 c hc3).2.1⟩
        · have hsep : ", ".data = [',', ' '] := rfl
          rw [hsep] at hc3
          simp only [List.mem_cons, List.not_mem_nil, or_false] at hc3
          rcases hc3 with rfl | rfl
          · exact ⟨by decide, by decide⟩
          · exact ⟨by decide, by decide⟩
      · exact ih (fun w hw => h w (List.mem_cons_of_mem _ hw)) c hc2

theorem goodLine_participants (ps : List String) (h : ∀ p ∈ ps, simpleToken p) :
    GoodLine ("participants: [" ++ joinStrs ", " ps ++ "]").data := by
  have hpre : ∀ c ∈ "participants: [".data, c ≠ '\n' ∧ c ≠ '\r' := by decide
  have hd : ("participants: [" ++ joinStrs ", " ps ++ "]").data
      = "participants: [".data ++ ((joinStrs ", " ps).data ++ [']']) := by
    rw [String.data_append, String.data_append, List.append_assoc]
  rw [hd]
  refine ⟨by simp, fun c hc => ?_, ?_⟩
  · rcases List.mem_append.mp hc with hc2 | hc2
    · exact hpre c hc2
    · rcases List.mem_append.mp hc2 with hc3 | hc3
      · exact joinStrs_comma_chars ps h c hc3
      · simp only [List.mem_singleton] at hc3
        subst hc3
        exact ⟨by decide, by decide⟩
  · rw [show ("participants: [".data ++ ((joinStrs ", " ps).data ++ [']'])).head?
      = some 'p' from rfl]
    decide

/-! ### C9: assembling the round trip -/

theorem mem_optField {l : List Char} {key : String} {o : Option String}
    (h : l ∈ (optField key o).map String.data) :
    ∃ v, o = some v ∧ l = (key ++ v).data := by
  cases o with
  | none => cases h
  | some v =>
    rw [optField] at h
    by_cases hv : v = ""
    · rw [if_neg (fun hne => hne hv)] at h
      cases h
    · rw [if_pos hv] at h
      simp only [List.mem_map, List.mem_singleton, exists_eq_left] at h
      exact ⟨v, rfl, h.symm⟩

theorem mem_psField {l : List Char} {o : Option (List String)}
    (h : l ∈ (psField o).map String.data) :
    ∃ ps, o = some ps ∧ l = ("participants: [" ++ joinStrs ", " ps ++ "]").data := by
  cases o with
  | none => cases h
  | some ps =>
    rw [psField] at h
    by_cases hp : ps.length > 0
    · rw [if_pos hp] at h
      simp only [List.mem_map, List.mem_singleton, exists_eq_left] at h
      exact ⟨ps, rfl, h.symm⟩
    · rw [if_neg hp] at h
      cases h

theorem fmLines_good (fm : MailFrontmatter)
    (hto : simpleToken fm.to_)
    (hfrom : ∀ f, fm.from_ = some f → simpleToken f)
    (hsubj : ∀ x, fm.subject = some x → simpleToken x)
    (hthr : ∀ x, fm.thread = some x → simpleToken x)
    (hps : ∀ ps, fm.participants = some ps → ∀ p ∈ ps, simpleToken p) :
    ∀ l ∈ (fmLines fm).map String.data, GoodLine l := by
  intro l hl
  rw [fmLines] at hl
  simp only [List.map_append, List.mem_append] at hl
  rcases hl with ((((h1 | h2) | h3) | h4) | h5) | h6
  · simp only [List.map_cons, List.map_nil, List.mem_singleton] at h1
    subst h1
    exact ⟨by decide, by decide, by decide⟩
  · rw [if_pos hto.1] at h2
    simp only [List.map_cons, List.map_nil, List.mem_singleton] at h2
    subst h2
    rw [String.data_append]
    exact goodLine_keyval "to: ".data fm.to_ (by decide) (by decide) (by decide) hto
  · obtain ⟨f, hf, rfl⟩ := mem_optField h3
    rw [String.data_append]
    exact goodLine_keyval "from: ".data f (by decide) (by decide) (by decide) (hfrom f hf)
  · obtain ⟨x, hx, rfl⟩ := mem_optField h4
    rw [String.data_append]
    exact goodLine_keyval "subject: ".data x (by decide) (by decide) (by decide) (hsubj x hx)
  · obtain ⟨x, hx, rfl⟩ := mem_optField h5
    rw [String.data_append]
    exact goodLine_keyval "thread: ".data x (by decide) (by decide) (by decide) (hthr x hx)
  · obtain ⟨ps, hp, rfl⟩ := mem_psField h6
    exact goodLine_participants ps (hps ps hp)

theorem fmLines_map_ne_nil (fm : MailFrontmatter) :
    (fmLines fm).map String.data ≠ [] := by
  rw [fmLines]
  simp

theorem matchFrontmatter_gen (fm : MailFrontmatter) (body : String)
    (hgood : ∀ l ∈ (fmLines fm).map String.data, GoodLine l) :
    matchFrontmatter (generateFrontmatter fm ++ "\n" ++ body).data
      = some (joinCharList ['\n'] ((fmLines fm).map String.data), body.data) := by
  rw [generateFrontmatter_data, matchFrontmatter]
  rw [show stripLead ['-', '-', '-', '\r', '\n']
      ('-' :: '-' :: '-' :: '\n' ::
        (joinCharList ['\n'] ((fmLines fm).map String.data)
          ++ ('\n' :: '-' :: '-' :: '-' :: '\n' :: body.data))) = none by
    simp [stripLead]]
  rw [show stripLead ['-', '-', '-', '\n']
      ('-' :: '-' :: '-' :: '\n' ::
        (joinCharList ['\n'] ((fmLines fm).map String.data)
          ++ ('\n' :: '-' :: '-' :: '-' :: '\n' :: body.data)))
      = some (joinCharList ['\n'] ((fmLines fm).map String.data)
          ++ ('\n' :: '-' :: '-' :: '-' :: '\n' :: body.data)) by
    simp [stripLead]]
  exact scanSep_lines _ _ hgood (fmLines_map_ne_nil fm)

theorem foldl_seg_to (A : ParsedFM) (t : String) (h : simpleToken t) :
    List.foldl parseLine A ((if t ≠ "" then ["to: " ++ t] else []).map String.data)
      = { A with to_ := .str t } := by
  rw [if_pos h.1]
  simp only [List.map_cons, List.map_nil, List.foldl_cons, List.foldl_nil]
  exact parseLine_to A t h

theorem foldl_seg_opt (A : ParsedFM) (key : String) (o : Option String)
    (upd : ParsedFM → String → ParsedFM)
    (h : ∀ f, o = some f → simpleToken f)
    (hline : ∀ (B : ParsedFM) (f : String), simpleToken f →
      parseLine B (key ++ f).data = upd B f) :
    List.foldl parseLine A ((optField key o).map String.data)
      = o.elim A (upd A) := by
  cases o with
  | none => rfl
  | some f =>
    have hf := h f rfl
    rw [optField, if_pos hf.1]
    simp only [List.map_cons, List.map_nil, List.foldl_cons, List.foldl_nil]
    exact hline A f hf

theorem foldl_seg_participants (A : ParsedFM) (o : Option (List String))
    (h : ∀ ps, o = some ps → ps ≠ [] ∧ ∀ p ∈ ps, simpleToken p ∧ (',' : Char) ∉ p.data) :
    List.foldl parseLine A ((psField o).map String.data)
      = o.elim A (fun ps => { A with participants := some (.arr ps) }) := by
  cases o with
  | none => rfl
  | some ps =>
    obtain ⟨hne, hsimple⟩ := h ps rfl
    rw [psField, if_pos (List.length_pos.mpr hne)]
    simp only [List.map_cons, List.map_nil, List.foldl_cons, List.foldl_nil]
    exact parseLine_participants A ps hsimple hne

/-- C9 as amended.  For every frontmatter value with `mail = true`, a
simple `to`, optional simple `from`/`subject`/`thread`, an optional
non-empty participants list of simple comma-free tokens, and any body:
parsing the generated content returns exactly the frontmatter that was
generated (each present field coming back as the same string, participants
as the same array), a body equal to the trimmed input body, and a parse
that `isValidMail` accepts.  (`simpleToken` additionally requires, beyond
the claim's unquoted/colon-free/bracket-free wording, that the token is
single-line, already trimmed, and not a `true`/`false` literal — see the
counterexample for why those conditions are forced.) -/
theorem frontmatter_roundtrip (fm : MailFrontmatter) (body : String)
    (hmail : fm.mail = true)
    (hto : simpleToken fm.to_)
    (hfrom : ∀ f, fm.from_ = some f → simpleToken f)
    (hsubj : ∀ x, fm.subject = some x → simpleToken x)
    (hthr : ∀ x, fm.thread = some x → simpleToken x)
    (hps : ∀ ps, fm.participants = some ps →
      ps ≠ [] ∧ ∀ p ∈ ps, simpleToken p ∧ (',' : Char) ∉ p.data) :
    parseFrontmatter (generateFrontmatter fm ++ "\n" ++ body)
      = ⟨⟨.bool true, .str fm.to_, fm.from_.map .str, fm.subject.map .str,
          fm.thread.map .str, fm.participants.map .arr⟩,
         String.mk (trimChars body.data),
         generateFrontmatter fm ++ "\n" ++ body⟩ ∧
    isValidMail (parseFrontmatter (generateFrontmatter fm ++ "\n" ++ body)) = true := by
  have hgood := fmLines_good fm hto hfrom hsubj hthr
    (fun ps hp p hpp => ((hps ps hp).2 p hpp).1)
  have hmain : parseFrontmatter (generateFrontmatter fm ++ "\n" ++ body)
      = ⟨⟨.bool true, .str fm.to_, fm.from_.map .str, fm.subject.map .str,
          fm.thread.map .str, fm.participants.map .arr⟩,
         String.mk (trimChars body.data),
         generateFrontmatter fm ++ "\n" ++ body⟩ := by
    rw [parseFrontmatter, matchFrontmatter_gen fm body hgood]
    dsimp only
    rw [split_joinCharList _ (fun l hl hm => ((hgood l hl).2.1 '\n' hm).1 rfl)
      (fmLines_map_ne_nil fm)]
    congr 1
    rw [fmLines]
    simp only [List.map_append, List.foldl_append]
    rw [show List.foldl parseLine initialPFM (["mail: true"].map String.data)
        = { initialPFM with mail := .bool true } from parseLine_mail initialPFM]
    rw [foldl_seg_to _ _ hto,
      foldl_seg_opt _ "from: " _ (fun B f => { B with from_ := some (.str f) }) hfrom
        (fun B f hf => parseLine_from B f hf),
      foldl_seg_opt _ "subject: " _ (fun B x => { B with subject := some (.str x) }) hsubj
        (fun B x hx => parseLine_subject B x hx),
      foldl_seg_opt _ "thread: " _ (fun B x => { B with thread := some (.str x) }) hthr
        (fun B x hx => parseLine_thread B x hx),
      foldl_seg_participants _ _ hps]
    clear hgood hps hthr hsubj hfrom hto hmail
    cases fm.from_ <;> cases fm.subject <;> cases fm.thread <;> cases fm.participants <;> rfl
  refine ⟨hmain, ?_⟩
  rw [hmain, isValidMail]
  dsimp only
  rw [show (FMVal.bool true == FMVal.bool true) = true from rfl, Bool.true_and]
  exact decide_eq_true (List.length_pos.mpr (simpleToken_data_ne_nil hto))

/-- The claim's own reading of "simple": non-empty, unquoted, colon-free
and bracket-free. -/
def claimSimple (s : String) : Prop :=
  s ≠ "" ∧ ∀ c ∈ s.data, c ≠ ':' ∧ c ≠ '[' ∧ c ≠ ']' ∧ c ≠ '"' ∧ c ≠ '\''

/-- Counterexample for C9 as stated: `to := "true"` is a non-empty,
unquoted, colon-free, bracket-free token, yet the round trip does not
return it — the parser coerces the value line `to: true` to the boolean
`true`, so the parsed `to` is not the string `"true"` and `isValidMail`
rejects the result (`typeof to !== 'string'`). -/
theorem frontmatter_roundtrip_cex :
    claimSimple "true" ∧
    (parseFrontmatter (generateFrontmatter ⟨true, "true", none, none, none, none⟩
        ++ "\n" ++ "x")).frontmatter.to_ ≠ .str "true" ∧
    isValidMail (parseFrontmatter (generateFrontmatter ⟨true, "true", none, none, none, none⟩
        ++ "\n" ++ "x")) = false := by
  refine ⟨⟨by decide, by decide⟩, by decide, by decide⟩

/-- Witness for the amended C9 theorem at a concrete input. -/
theorem frontmatter_roundtrip_witness :
    isValidMail (parseFrontmatter
      (generateFrontmatter ⟨true, "alice", some "bob", none, some "t9", some ["a", "b"]⟩
        ++ "\n" ++ " hi ")) = true :=
  (frontmatter_roundtrip ⟨true, "alice", some "bob", none, some "t9", some ["a", "b"]⟩
    " hi " rfl (by decide)
    (fun f hf => Option.some.inj hf ▸ (by decide : simpleToken "bob"))
    (fun x hx => Option.noConfusion hx)
    (fun x hx => Option.some.inj hx ▸ (by decide : simpleToken "t9"))
    (fun ps h => Option.some.inj h ▸
      (by decide : (["a", "b"] : List String) ≠ [] ∧
        ∀ p ∈ (["a", "b"] : List String), simpleToken p ∧ (',' : Char) ∉ p.data))).2

end Iam
